import Mathlib

/- Verification development for AR.Timeline Creator v1
   (src/AR_Timeline_Creator_v1/AR_Timeline_Creator.py).

   The Python source is shallowly embedded below: its pure helpers
   (safe_parse_date, ensure_list, filtered_events, sorted_events, the chart
   projection) become Lean functions over an Event record, the Streamlit
   event-store mutations (save / delete / JSON load) become explicit
   state-passing functions, and the JSON save/load layer (json.dumps with
   indent=2 / json.load) is embedded as an executable printer and a fueled
   recursive-descent reader over the JSON value universe the store uses.

   Strings are Lean strings (sequences of Unicode scalar values); Python's
   str.lower / str.strip are modelled by String.toLower / String.trim, which
   agree with Python on the ASCII range the application data uses. -/

namespace ARTimeline

/-- Python str.strip(): drop leading and trailing whitespace
    (modelled on the ASCII whitespace the application data uses). -/
def pyStrip (s : String) : String :=
  ⟨((s.data.dropWhile Char.isWhitespace).reverse.dropWhile Char.isWhitespace).reverse⟩

/-- Python str.lower(), character by character
    (exact on the ASCII range; Char.toLower only maps basic latin). -/
def pyLower (s : String) : String := ⟨s.data.map Char.toLower⟩

/-- Helper for str.split(","): accumulate the current field until a comma. -/
def splitCommaAux : List Char → List Char → List (List Char)
  | [], acc => [acc.reverse]
  | ',' :: rest, acc => acc.reverse :: splitCommaAux rest []
  | c :: rest, acc => splitCommaAux rest (c :: acc)

/-- Python str.split(","): fields between commas, so "".split(",") is [""]
    and adjacent commas produce empty fields. -/
def pySplitComma (s : String) : List String :=
  (splitCommaAux s.data []).map (fun l => ⟨l⟩)

/-- Python sep.join(parts). -/
def pyJoin (sep : String) : List String → String
  | [] => ""
  | [x] => x
  | x :: xs => x ++ sep ++ pyJoin sep xs

/-- Calendar date as produced by datetime.strptime(...).date():
    a year/month/day triple. -/
structure Date where
  year : Nat
  month : Nat
  day : Nat
deriving DecidableEq

/-- Numeric value of a decimal digit character. -/
def digitVal (c : Char) : Nat := c.toNat - 48

/-- Python strptime directive %Y: exactly four decimal digits. -/
def parse4Y : List Char → Option (Nat × List Char)
  | c1 :: c2 :: c3 :: c4 :: rest =>
    if c1.isDigit && c2.isDigit && c3.isDigit && c4.isDigit then
      some (digitVal c1 * 1000 + digitVal c2 * 100 + digitVal c3 * 10 + digitVal c4, rest)
    else none
  | _ => none

/-- Python strptime directive %m, regex 1[0-2]|0[1-9]|[1-9]
    (alternatives tried in order at the same position). -/
def parseMonth : List Char → Option (Nat × List Char)
  | '1' :: c :: rest =>
    if '0' ≤ c ∧ c ≤ '2' then some (10 + digitVal c, rest) else some (1, c :: rest)
  | '0' :: c :: rest =>
    if '1' ≤ c ∧ c ≤ '9' then some (digitVal c, rest) else none
  | c :: rest =>
    if '1' ≤ c ∧ c ≤ '9' then some (digitVal c, rest) else none
  | [] => none

/-- Python strptime directive %d, regex 3[01]|[12]\d|0[1-9]|[1-9]. -/
def parseDay : List Char → Option (Nat × List Char)
  | '3' :: c :: rest =>
    if '0' ≤ c ∧ c ≤ '1' then some (30 + digitVal c, rest) else some (3, c :: rest)
  | '0' :: c :: rest =>
    if '1' ≤ c ∧ c ≤ '9' then some (digitVal c, rest) else none
  | c :: c2 :: rest =>
    if ('1' ≤ c ∧ c ≤ '2') ∧ c2.isDigit then some (digitVal c * 10 + digitVal c2, rest)
    else if '1' ≤ c ∧ c ≤ '9' then some (digitVal c, c2 :: rest)
    else none
  | c :: rest =>
    if '1' ≤ c ∧ c ≤ '9' then some (digitVal c, rest) else none
  | [] => none

/-- Gregorian leap-year rule used by datetime. -/
def isLeapYear (y : Nat) : Bool := y % 4 == 0 && (y % 100 != 0 || y % 400 == 0)

/-- Length of a month as validated by the datetime constructor. -/
def daysInMonth (y m : Nat) : Nat :=
  if m = 2 then (if isLeapYear y then 29 else 28)
  else if m = 4 ∨ m = 6 ∨ m = 9 ∨ m = 11 then 30
  else 31

/-- Range checks performed by the datetime constructor
    (MINYEAR = 1, MAXYEAR = 9999, day bounded by the month length);
    a violation raises ValueError, which safe_parse_date catches. -/
def mkValidDate (y m d : Nat) : Option Date :=
  if 1 ≤ y ∧ y ≤ 9999 ∧ 1 ≤ m ∧ m ≤ 12 ∧ 1 ≤ d ∧ d ≤ daysInMonth y m then
    some ⟨y, m, d⟩
  else none

/-- datetime.strptime(s, "%Y-%m-%d").date(): full match required
    (leftover input is "unconverted data" and fails). -/
def strptimeYMD (cs : List Char) : Option Date :=
  match parse4Y cs with
  | some (y, '-' :: r2) =>
    match parseMonth r2 with
    | some (m, '-' :: r4) =>
      match parseDay r4 with
      | some (d, []) => mkValidDate y m d
      | _ => none
    | _ => none
  | _ => none

/-- datetime.strptime(s, "%Y-%m").date(): missing day defaults to 1. -/
def strptimeYM (cs : List Char) : Option Date :=
  match parse4Y cs with
  | some (y, '-' :: r2) =>
    match parseMonth r2 with
    | some (m, []) => mkValidDate y m 1
    | _ => none
  | _ => none

/-- datetime.strptime(s, "%Y").date(): missing month and day default to 1. -/
def strptimeY (cs : List Char) : Option Date :=
  match parse4Y cs with
  | some (y, []) => mkValidDate y 1 1
  | _ => none

/-- safe_parse_date(s): falsy (empty) input gives None, otherwise the input
    is stripped and the formats "%Y-%m-%d", "%Y-%m", "%Y" are tried in
    order, the first success winning; every failure is caught. -/
def safe_parse_date (s : String) : Option Date :=
  if s = "" then none
  else
    let t := pyStrip s
    match strptimeYMD t.data with
    | some d => some d
    | none =>
      match strptimeYM t.data with
      | some d => some d
      | none => strptimeY t.data

/-- Argument universe of ensure_list: the stored value may be Python None,
    an already-structured list, or freeform comma separated text. -/
inductive ListOrStr where
  | noneVal : ListOrStr
  | list : List String → ListOrStr
  | str : String → ListOrStr
deriving DecidableEq

/-- Dedup loop of ensure_list: out.append(p) unless p.lower() is in seen,
    where seen collects the lowercased entries already kept. -/
def dedupeAux : List String → List String → List String
  | [], _ => []
  | p :: ps, seen =>
    if pyLower p ∈ seen then dedupeAux ps seen
    else p :: dedupeAux ps (pyLower p :: seen)

/-- ensure_list(s): None gives [], a list is returned unchanged, and a
    string is split on commas, each part stripped, empty parts dropped,
    then deduplicated case-insensitively keeping first occurrences. -/
def ensure_list : ListOrStr → List String
  | .noneVal => []
  | .list l => l
  | .str s =>
    dedupeAux (((pySplitComma s).map pyStrip).filter (fun p => p != "")) []

/-- Mathematical form of case-insensitive dedup keeping first occurrences:
    keep the head, drop later entries with the same lowercasing, recurse. -/
def dedupCI : List String → List String
  | [] => []
  | x :: xs => x :: dedupCI (xs.filter (fun y => pyLower y != pyLower x))
termination_by l => l.length
decreasing_by
  simp only [List.length_cons]
  exact Nat.lt_succ_of_le (List.length_filter_le _ _)

/-- Comma-separated parts of a string after stripping, empties dropped:
    the pre-dedup stage of ensure_list on a string. -/
def strParts (s : String) : List String :=
  ((pySplitComma s).map pyStrip).filter (fun p => p != "")

/-- Event record: the dict produced by new_event_template and stored in
    st.session_state.events. Bulk-loaded records may lack any of the keys,
    so every field is optional; consumers read fields through .get with
    a default (modelled by Option.getD). The characters/categories slots
    may hold a structured list, freeform text, or null. -/
structure Event where
  id : Option String
  title : Option String
  date_text : Option String
  start_date : Option String
  end_date : Option String
  era : Option String
  story : Option String
  characters : Option ListOrStr
  categories : Option ListOrStr
  notes : Option String
  sort_index : Option Int
deriving DecidableEq

/-- Characters of an event as read by the app:
    ensure_list(ev.get("characters", [])). -/
def Event.chars (e : Event) : List String :=
  ensure_list (e.characters.getD (.list []))

/-- Categories of an event as read by the app:
    ensure_list(ev.get("categories", [])). -/
def Event.cats (e : Event) : List String :=
  ensure_list (e.categories.getD (.list []))

/-- Python substring membership, needle in hay. -/
def pyInStr (needle hay : String) : Bool :=
  decide (needle.data <:+: hay.data)

/-- Keyword search blob of filtered_events: the space-joined title,
    date_text, story, era, joined characters, joined categories and notes,
    lowercased. -/
def searchBlob (ev : Event) : String :=
  pyLower (pyJoin " " [ev.title.getD "", ev.date_text.getD "", ev.story.getD "",
    ev.era.getD "", pyJoin ", " ev.chars, pyJoin ", " ev.cats, ev.notes.getD ""])

/-- Inner match(ev) predicate of filtered_events: a chain of early False
    returns, one per supplied criterion. -/
def eventMatches (story era character category keyword : String) (ev : Event) : Bool :=
  if story != "" && pyStrip (ev.story.getD "") != story then false
  else if era != "" && pyStrip (ev.era.getD "") != era then false
  else if character != "" && !(ev.chars.map pyLower).contains (pyLower character) then
    false
  else if category != "" && !(ev.cats.map pyLower).contains (pyLower category) then
    false
  else if keyword != "" && !pyInStr (pyLower keyword) (searchBlob ev) then false
  else true

/-- filtered_events(all_events, story, era, character, category, keyword):
    the events passing match, in input order. -/
def filtered_events (all_events : List Event)
    (story era character category keyword : String) : List Event :=
  all_events.filter (eventMatches story era character category keyword)

/-- Strict lexicographic comparison of parsed dates, as Python compares
    datetime.date values. -/
def dateLT (a b : Date) : Bool :=
  a.year < b.year ||
    (a.year == b.year && (a.month < b.month || (a.month == b.month && a.day < b.day)))

/-- Sentinel datetime(9999,12,31).date() used for unparseable start dates. -/
def sentinelDate : Date := ⟨9999, 12, 31⟩

/-- Sort key of sorted_events: (parsed start_date or sentinel,
    sort_index, lowercased title). -/
def sortKey (e : Event) : Date × Int × String :=
  ((safe_parse_date (e.start_date.getD "")).getD sentinelDate,
   e.sort_index.getD 0, pyLower (e.title.getD ""))

/-- Python tuple comparison key(a) <= key(b): lexicographic over the date,
    the integer tie-breaker and the lowercased title. -/
def keyLE (a b : Date × Int × String) : Bool :=
  dateLT a.1 b.1 ||
    (a.1 == b.1 &&
      (a.2.1 < b.2.1 || (a.2.1 == b.2.1 && decide (a.2.2 ≤ b.2.2))))

/-- Comparison relation of sorted_events on events. -/
def eventLE (a b : Event) : Prop := keyLE (sortKey a) (sortKey b) = true

instance : DecidableRel eventLE := fun _ _ => instDecidableEqBool _ _

/-- sorted(evts, key=key): Python's sort is a stable sort by the composite
    key; a stable insertion sort by the same key is extensionally the same
    function. -/
def sorted_events (evts : List Event) : List Event :=
  evts.insertionSort eventLE

/-- Row of the timeline-chart dataframe. -/
structure ChartRow where
  rTitle : String
  rStart : Date
  rEnd : Date
  rStory : String
  rEra : String
  rCategory : String
deriving DecidableEq

/-- Row built for an event with a parsed start date d: effective end is the
    parsed end_date, defaulting to d; the category label is the joined
    categories or "Uncategorized" when that string is empty. -/
def rowOf (e : Event) (d : Date) : ChartRow :=
  ⟨e.title.getD "", d, (safe_parse_date (e.end_date.getD "")).getD d,
   e.story.getD "", e.era.getD "",
   if pyJoin ", " e.cats = "" then "Uncategorized" else pyJoin ", " e.cats⟩

/-- Chart projection loop: one row per event whose start_date parses,
    in input order; events with unparseable start are skipped. -/
def chart_rows : List Event → List ChartRow
  | [] => []
  | e :: rest =>
    match safe_parse_date (e.start_date.getD "") with
    | none => chart_rows rest
    | some d => rowOf e d :: chart_rows rest

/-- Zero-filled view of an event: every absent field replaced by its zero
    value (empty string, empty list, 0), present fields kept. -/
def fillDefaults (e : Event) : Event :=
  ⟨some (e.id.getD ""), some (e.title.getD ""), some (e.date_text.getD ""),
   some (e.start_date.getD ""), some (e.end_date.getD ""), some (e.era.getD ""),
   some (e.story.getD ""), some (e.characters.getD (.list [])),
   some (e.categories.getD (.list [])), some (e.notes.getD ""),
   some (e.sort_index.getD 0)⟩

/-- Story criterion as the spec states it: empty means no filtering,
    otherwise trimmed case-sensitive equality on the event's story. -/
def storyOK (story : String) (ev : Event) : Prop :=
  story = "" ∨ pyStrip (ev.story.getD "") = story

/-- Era criterion: empty means no filtering, otherwise trimmed
    case-sensitive equality on the event's era. -/
def eraOK (era : String) (ev : Event) : Prop :=
  era = "" ∨ pyStrip (ev.era.getD "") = era

/-- Character criterion: empty means no filtering, otherwise
    case-insensitive membership in the event's characters. -/
def charOK (character : String) (ev : Event) : Prop :=
  character = "" ∨ pyLower character ∈ ev.chars.map pyLower

/-- Category criterion: empty means no filtering, otherwise
    case-insensitive membership in the event's categories. -/
def catOK (category : String) (ev : Event) : Prop :=
  category = "" ∨ pyLower category ∈ ev.cats.map pyLower

/-- Keyword criterion: empty means no filtering, otherwise
    case-insensitive substring match against the search blob. -/
def kwOK (keyword : String) (ev : Event) : Prop :=
  keyword = "" ∨ (pyLower keyword).data <:+: (searchBlob ev).data

instance (story : String) (ev : Event) : Decidable (storyOK story ev) := by
  unfold storyOK; infer_instance

instance (era : String) (ev : Event) : Decidable (eraOK era ev) := by
  unfold eraOK; infer_instance

instance (character : String) (ev : Event) : Decidable (charOK character ev) := by
  unfold charOK; infer_instance

instance (category : String) (ev : Event) : Decidable (catOK category ev) := by
  unfold catOK; infer_instance

instance (keyword : String) (ev : Event) : Decidable (kwOK keyword ev) := by
  unfold kwOK; infer_instance

/-- Test event with start date 1820-06 (sort-determinism example). -/
def evA : Event :=
  ⟨some "idA", some "A", none, some "1820-06", none, none, none, none, none, none, some 0⟩

/-- Test event with start date 1850 (sort-determinism example). -/
def evB : Event :=
  ⟨some "idB", some "B", none, some "1850", none, none, none, none, none, none, some 0⟩

/-- Test event with empty (unparseable) start date
    (sort-determinism example). -/
def evC : Event :=
  ⟨some "idC", some "C", none, some "", none, none, none, none, none, none, some 0⟩

/-- Test event with start 1900 and empty end (chart-exclusion example). -/
def ev1900 : Event :=
  ⟨some "id1900", some "T", none, some "1900", some "", none, none, none, none, none, some 0⟩

/-- Test event with empty start date (chart-exclusion example). -/
def evNoDate : Event :=
  ⟨some "idN", some "N", none, some "", none, none, none, none, none, none, some 0⟩

/-- Form inputs read by the Save Event handler (text widgets and the
    numeric sort index). -/
structure FormFields where
  title : String
  date_text : String
  start_date : String
  end_date : String
  era : String
  story : String
  characters_text : String
  categories_text : String
  notes : String
  sort_index : Int
deriving DecidableEq

/-- new_event_template(): fresh id, empty strings, empty lists, index 0.
    The fresh uuid4 string is passed in explicitly. -/
def new_event_template (fresh : String) : Event :=
  ⟨some fresh, some "", some "", some "", some "", some "", some "",
   some (.list []), some (.list []), some "", some 0⟩

/-- Payload built by the Save Event handler: the template, with the id
    taken from the event being edited when there is one, then every field
    replaced from the stripped form inputs; characters and categories go
    through ensure_list on the comma separated text. -/
def mk_payload (fresh : String) (editing : Option Event) (f : FormFields) : Event :=
  ⟨(match editing with | some ev => ev.id | none => (new_event_template fresh).id),
   some (pyStrip f.title), some (pyStrip f.date_text), some (pyStrip f.start_date),
   some (pyStrip f.end_date), some (pyStrip f.era), some (pyStrip f.story),
   some (.list (ensure_list (.str f.characters_text))),
   some (.list (ensure_list (.str f.categories_text))),
   some (pyStrip f.notes), some f.sort_index⟩

/-- editing_event lookup: next((e for e in events if e["id"] == edit_id),
    None). Events are compared by their stored id. -/
def find_event (events : List Event) (eid : String) : Option Event :=
  events.find? (fun e => e.id == some eid)

/-- By-id replacement step of the update branch:
    [payload if e["id"] == eid else e for e in events]. -/
def update_replace (events : List Event) (eid : String) (payload : Event) : List Event :=
  events.map (fun e => if e.id == some eid then payload else e)

/-- Save Event handler: reject when the stripped title is empty; otherwise
    build the payload and either replace the edited event in place (edit
    mode, id found) or append a new event (the fallback when edit_id names
    no stored event behaves exactly like an add). -/
def save_event (fresh : String) (events : List Event) (edit_id : Option String)
    (f : FormFields) : List Event :=
  if pyStrip f.title = "" then events
  else
    let editing := match edit_id with
      | none => none
      | some eid => find_event events eid
    let payload := mk_payload fresh editing f
    match editing with
    | some ev => events.map (fun e => if e.id == ev.id then payload else e)
    | none => events ++ [payload]

/-- Delete handler: [e for e in events if e["id"] != eid]. -/
def delete_event (events : List Event) (eid : String) : List Event :=
  events.filter (fun e => !(e.id == some eid))

/-- Concrete form fields with a nonempty title, used as test input. -/
def f0 : FormFields := ⟨"X", "", "", "", "", "", "", "", "", 0⟩

/-- Store operations of the session: saving the form (add or update),
    deleting by id, and the bulk JSON load, which installs the decoded
    upload verbatim with no per-record validation. -/
inductive StoreOp where
  | save (fresh : String) (edit_id : Option String) (f : FormFields)
  | del (eid : String)
  | load (data : List Event)
deriving DecidableEq

/-- Whether an operation is the bulk load. -/
def StoreOp.isLoad : StoreOp → Bool
  | .load _ => true
  | _ => false

/-- One store transition. -/
def step (store : List Event) : StoreOp → List Event
  | .save fresh editId f => save_event fresh store editId f
  | .del eid => delete_event store eid
  | .load data => data

/-- A session: fold the operations over the store. -/
def runOps (store : List Event) (ops : List StoreOp) : List Event :=
  ops.foldl step store

/-- No two entries equal under case-insensitive comparison. -/
def ciDistinct (l : List String) : Prop :=
  l.Pairwise (fun a b => pyLower a ≠ pyLower b)

/-- The claimed store invariant: every event's characters and categories,
    as read by the app, are case-insensitively duplicate-free. -/
def storeCIInv (store : List Event) : Prop :=
  ∀ e ∈ store, ciDistinct e.chars ∧ ciDistinct e.cats

/-- Event-shaped record with case-insensitively duplicated characters, as
    a bulk load can install verbatim. -/
def evDup : Event :=
  ⟨some "idD", some "D", none, none, none, none, none,
   some (.list ["Bob", "bob"]), none, none, some 0⟩

/-- JSON value universe handled by the save/load layer: strings, ints,
    booleans, null, arrays and objects (ordered key/value pairs), plus
    non-integral numeric lexemes (floats, NaN, Infinity) kept as raw text,
    which well-formed event data never contains. -/
inductive JsonVal where
  | str (s : String)
  | int (n : Int)
  | bool (b : Bool)
  | null
  | numLex (s : String)
  | arr (l : List JsonVal)
  | obj (kvs : List (String × JsonVal))

/-- Opening curly bracket character. -/
def lbrace : Char := Char.ofNat 123

/-- Closing curly bracket character. -/
def rbrace : Char := Char.ofNat 125

/-- Lowercase hexadecimal digit, as the json encoder emits. -/
def hexDigitChar (n : Nat) : Char :=
  if n < 10 then Char.ofNat (48 + n) else Char.ofNat (87 + n)

/-- Four zero-padded lowercase hex digits of a value below 0x10000. -/
def hex4 (u : Nat) : List Char :=
  [hexDigitChar (u / 4096 % 16), hexDigitChar (u / 256 % 16),
   hexDigitChar (u / 16 % 16), hexDigitChar (u % 16)]

/-- Escape of one character in a JSON string literal, as the default
    ensure_ascii encoder does it: named escapes for quote, backslash and
    common controls, printable ASCII kept, everything else as uXXXX hex
    escapes with surrogate pairs above 0xFFFF. -/
def escapeChar (c : Char) : List Char :=
  if c = '"' then ['\\', '"']
  else if c = '\\' then ['\\', '\\']
  else if c = '\n' then ['\\', 'n']
  else if c = '\r' then ['\\', 'r']
  else if c = '\t' then ['\\', 't']
  else if c.toNat = 8 then ['\\', 'b']
  else if c.toNat = 12 then ['\\', 'f']
  else if 0x20 ≤ c.toNat ∧ c.toNat ≤ 0x7e then [c]
  else if c.toNat < 0x10000 then '\\' :: 'u' :: hex4 c.toNat
  else ('\\' :: 'u' :: hex4 (0xd800 + (c.toNat - 0x10000) / 0x400)) ++
       ('\\' :: 'u' :: hex4 (0xdc00 + (c.toNat - 0x10000) % 0x400))

/-- Escape every character of a string body. -/
def escList : List Char → List Char
  | [] => []
  | c :: cs => escapeChar c ++ escList cs

/-- JSON string literal: quote, escaped body, quote. -/
def encodeStr (s : String) : List Char := '"' :: (escList s.data ++ ['"'])

/-- Decimal digits of n, least significant first; the fuel argument only
    bounds the recursion and any fuel above n is enough. -/
def natToRevDigits : Nat → Nat → List Nat
  | 0, _ => []
  | fuel + 1, n => if n < 10 then [n] else n % 10 :: natToRevDigits fuel (n / 10)

/-- Decimal notation of a natural number. -/
def printNat (n : Nat) : List Char :=
  (natToRevDigits (n + 1) n).reverse.map (fun d => Char.ofNat (48 + d))

/-- Decimal notation of an integer, as repr prints Python ints. -/
def printInt : Int → List Char
  | .ofNat n => printNat n
  | .negSucc m => '-' :: printNat (m + 1)

/-- Newline followed by the 2-space indent of the given nesting level. -/
def nlIndent (lvl : Nat) : List Char := '\n' :: List.replicate (2 * lvl) ' '

mutual
/-- json.dumps(..., indent=2) of one value at a nesting level: scalars
    inline; non-empty containers put every item on its own indented line
    and the closing bracket on the parent's level. -/
def dumpVal (lvl : Nat) : JsonVal → List Char
  | .str s => encodeStr s
  | .int n => printInt n
  | .bool b => if b then "true".data else "false".data
  | .null => "null".data
  | .numLex s => s.data
  | .arr [] => ['[', ']']
  | .arr (v :: vs) =>
    '[' :: (nlIndent (lvl + 1) ++ dumpVal (lvl + 1) v ++ dumpArrRest (lvl + 1) vs ++
      nlIndent lvl ++ [']'])
  | .obj [] => [lbrace, rbrace]
  | .obj ((k, v) :: kvs) =>
    lbrace :: (nlIndent (lvl + 1) ++ encodeStr k ++ ':' :: ' ' :: dumpVal (lvl + 1) v ++
      dumpObjRest (lvl + 1) kvs ++ nlIndent lvl ++ [rbrace])

/-- Second and later array items, each after a comma and line break. -/
def dumpArrRest (lvl : Nat) : List JsonVal → List Char
  | [] => []
  | v :: vs => ',' :: (nlIndent lvl ++ dumpVal lvl v ++ dumpArrRest lvl vs)

/-- Second and later object members, each after a comma and line break. -/
def dumpObjRest (lvl : Nat) : List (String × JsonVal) → List Char
  | [] => []
  | (k, v) :: kvs =>
    ',' :: (nlIndent lvl ++ encodeStr k ++ ':' :: ' ' :: dumpVal lvl v ++
      dumpObjRest lvl kvs)
end

/-- serialize: json.dumps(st.session_state.events, indent=2), the exported
    download. -/
def serialize (events : List JsonVal) : String := ⟨dumpVal 0 (.arr events)⟩

/-- The four whitespace characters the json reader skips. -/
def isJsonWS (c : Char) : Bool := c = ' ' || c = '\t' || c = '\n' || c = '\r'

/-- Skip leading JSON whitespace. -/
def skipWS : List Char → List Char
  | [] => []
  | c :: cs => if isJsonWS c then skipWS cs else c :: cs

/-- Value of a hex digit in either case. -/
def hexVal? (c : Char) : Option Nat :=
  if '0' ≤ c ∧ c ≤ '9' then some (c.toNat - 48)
  else if 'a' ≤ c ∧ c ≤ 'f' then some (c.toNat - 87)
  else if 'A' ≤ c ∧ c ≤ 'F' then some (c.toNat - 55)
  else none

/-- Exactly four hex digits. -/
def parse4Hex : List Char → Option (Nat × List Char)
  | c1 :: c2 :: c3 :: c4 :: rest =>
    match hexVal? c1, hexVal? c2, hexVal? c3, hexVal? c4 with
    | some h1, some h2, some h3, some h4 =>
      some (((h1 * 16 + h2) * 16 + h3) * 16 + h4, rest)
    | _, _, _, _ => none
  | _ => none

/-- Named escapes accepted after a backslash (the BACKSLASH table). -/
def escLookup (e : Char) : Option Char :=
  if e = '"' then some '"'
  else if e = '\\' then some '\\'
  else if e = '/' then some '/'
  else if e = 'b' then some (Char.ofNat 8)
  else if e = 'f' then some (Char.ofNat 12)
  else if e = 'n' then some '\n'
  else if e = 'r' then some '\r'
  else if e = 't' then some '\t'
  else none

/-- JSON string body reader (py_scanstring, strict mode), fueled; called
    after the opening quote, returns the decoded characters and the input
    after the closing quote. Control characters are rejected; the named
    escapes and uXXXX escapes are decoded, surrogate pairs recombined.
    Lone surrogate escapes, which Python would turn into non-scalar
    strings, are outside this model and rejected. -/
def scanString : Nat → List Char → Option (List Char × List Char)
  | 0, _ => none
  | _ + 1, [] => none
  | fuel + 1, c :: cs =>
    if c = '"' then some ([], cs)
    else if c = '\\' then
      match cs with
      | [] => none
      | e :: cs2 =>
        if e = 'u' then
          match parse4Hex cs2 with
          | none => none
          | some (u, cs3) =>
            if 0xd800 ≤ u ∧ u ≤ 0xdbff then
              match cs3 with
              | c1 :: c2 :: cs4 =>
                if c1 = '\\' ∧ c2 = 'u' then
                  match parse4Hex cs4 with
                  | none => none
                  | some (u2, cs5) =>
                    if 0xdc00 ≤ u2 ∧ u2 ≤ 0xdfff then
                      match scanString fuel cs5 with
                      | some (out, rest) =>
                        some (Char.ofNat (0x10000 + (u - 0xd800) * 0x400 + (u2 - 0xdc00))
                          :: out, rest)
                      | none => none
                    else none
                else none
              | _ => none
            else if 0xdc00 ≤ u ∧ u ≤ 0xdfff then none
            else
              match scanString fuel cs3 with
              | some (out, rest) => some (Char.ofNat u :: out, rest)
              | none => none
        else
          match escLookup e with
          | none => none
          | some d =>
            match scanString fuel cs2 with
            | some (out, rest) => some (d :: out, rest)
            | none => none
    else if c.toNat < 0x20 then none
    else
      match scanString fuel cs with
      | some (out, rest) => some (c :: out, rest)
      | none => none

/-- Longest digit prefix and what follows it. -/
def spanDigits : List Char → (List Char × List Char)
  | [] => ([], [])
  | c :: cs =>
    if c.isDigit then
      let (ds, rest) := spanDigits cs
      (c :: ds, rest)
    else ([], c :: cs)

/-- Numeric value of a digit list, most significant first. -/
def digitsVal (l : List Char) : Nat :=
  l.foldl (fun a c => a * 10 + (c.toNat - 48)) 0

/-- Fraction part regex fragment: a dot followed by one or more digits;
    none when absent (the dot then stays in the input). -/
def scanFrac : List Char → Option (List Char × List Char)
  | p :: c :: cs =>
    if p = '.' ∧ c.isDigit then
      let (ds, rest) := spanDigits cs
      some (p :: c :: ds, rest)
    else none
  | _ => none

/-- Exponent part regex fragment: e or E, optional sign, one or more
    digits; none when absent. -/
def scanExp : List Char → Option (List Char × List Char)
  | e :: s :: c :: cs =>
    if e = 'e' ∨ e = 'E' then
      if (s = '+' ∨ s = '-') ∧ c.isDigit then
        let (ds, rest) := spanDigits cs
        some (e :: s :: c :: ds, rest)
      else if s.isDigit then
        let (ds, rest) := spanDigits (c :: cs)
        some (e :: s :: ds, rest)
      else none
    else none
  | [e, s] =>
    if (e = 'e' ∨ e = 'E') ∧ s.isDigit then some ([e, s], []) else none
  | _ => none

/-- Number token after the optional minus sign (regex
    int-part 0 or nonzero-leading digits, optional fraction, optional
    exponent): an integer when both optional parts are absent, otherwise a
    float kept as its lexeme. -/
def scanNumberCore (neg : Bool) (cs : List Char) : Option (JsonVal × List Char) :=
  match cs with
  | [] => none
  | c :: rest =>
    if c = '0' ∨ ('1' ≤ c ∧ c ≤ '9') then
      let (intDigits, r) :=
        if c = '0' then (([c] : List Char), rest)
        else
          let (ds, r0) := spanDigits rest
          (c :: ds, r0)
      let sign : List Char := if neg then ['-'] else []
      match scanFrac r with
      | some (fchars, r2) =>
        match scanExp r2 with
        | some (echars, r3) => some (.numLex ⟨sign ++ intDigits ++ fchars ++ echars⟩, r3)
        | none => some (.numLex ⟨sign ++ intDigits ++ fchars⟩, r2)
      | none =>
        match scanExp r with
        | some (echars, r2) => some (.numLex ⟨sign ++ intDigits ++ echars⟩, r2)
        | none =>
          some (.int (if neg then -(digitsVal intDigits : Int) else digitsVal intDigits), r)
    else none

mutual
/-- One JSON value (the scan_once dispatcher), fueled: strings, objects,
    arrays, the null and boolean constants, numbers, and the NaN and
    Infinity constants the Python reader also accepts. -/
def parseVal : Nat → List Char → Option (JsonVal × List Char)
  | 0, _ => none
  | _ + 1, [] => none
  | fuel + 1, c :: rest =>
    if c = '"' then
      match scanString (rest.length + 1) rest with
      | some (out, r) => some (.str ⟨out⟩, r)
      | none => none
    else if c = lbrace then
      match skipWS rest with
      | [] => none
      | c2 :: r2 =>
        if c2 = rbrace then some (.obj [], r2)
        else
          match parseMembers fuel (c2 :: r2) with
          | some (kvs, r3) => some (.obj kvs, r3)
          | none => none
    else if c = '[' then
      match skipWS rest with
      | [] => none
      | c2 :: r2 =>
        if c2 = ']' then some (.arr [], r2)
        else
          match parseItems fuel (c2 :: r2) with
          | some (vs, r3) => some (.arr vs, r3)
          | none => none
    else if c = 'n' then
      match rest with
      | 'u' :: 'l' :: 'l' :: r => some (.null, r)
      | _ => none
    else if c = 't' then
      match rest with
      | 'r' :: 'u' :: 'e' :: r => some (.bool true, r)
      | _ => none
    else if c = 'f' then
      match rest with
      | 'a' :: 'l' :: 's' :: 'e' :: r => some (.bool false, r)
      | _ => none
    else if c = 'N' then
      match rest with
      | 'a' :: 'N' :: r => some (.numLex "NaN", r)
      | _ => none
    else if c = 'I' then
      match rest with
      | 'n' :: 'f' :: 'i' :: 'n' :: 'i' :: 't' :: 'y' :: r =>
        some (.numLex "Infinity", r)
      | _ => none
    else if c = '-' then
      match rest with
      | [] => none
      | r1 :: rs =>
        if r1 = 'I' then
          match rs with
          | 'n' :: 'f' :: 'i' :: 'n' :: 'i' :: 't' :: 'y' :: r =>
            some (.numLex "-Infinity", r)
          | _ => none
        else scanNumberCore true (r1 :: rs)
    else if c.isDigit then scanNumberCore false (c :: rest)
    else none

/-- Array items from the first value on: value, then comma and the next
    item or the closing bracket, whitespace skipped between tokens. -/
def parseItems : Nat → List Char → Option (List JsonVal × List Char)
  | 0, _ => none
  | fuel + 1, cs =>
    match parseVal fuel cs with
    | none => none
    | some (v, r) =>
      match skipWS r with
      | [] => none
      | c :: r2 =>
        if c = ']' then some ([v], r2)
        else if c = ',' then
          match parseItems fuel (skipWS r2) with
          | some (vs, r3) => some (v :: vs, r3)
          | none => none
        else none

/-- Object members from the first key on: quoted key, colon, value, then
    comma and the next member or the closing bracket. -/
def parseMembers : Nat → List Char → Option (List (String × JsonVal) × List Char)
  | 0, _ => none
  | fuel + 1, cs =>
    match cs with
    | '"' :: r =>
      match scanString (r.length + 1) r with
      | none => none
      | some (kdata, r2) =>
        match skipWS r2 with
        | ':' :: r3 =>
          match parseVal fuel (skipWS r3) with
          | none => none
          | some (v, r4) =>
            match skipWS r4 with
            | [] => none
            | c :: r5 =>
              if c = rbrace then some ([(⟨kdata⟩, v)], r5)
              else if c = ',' then
                match parseMembers fuel (skipWS r5) with
                | some (kvs, r6) => some ((⟨kdata⟩, v) :: kvs, r6)
                | none => none
              else none
        | _ => none
    | _ => none
end

/-- json.load: skip leading whitespace, read one value, require only
    whitespace after it. The fuel is one more than the input length, which
    the round-trip development shows is always enough for printed data. -/
def parseJson (s : String) : Option JsonVal :=
  match parseVal (s.data.length + 1) (skipWS s.data) with
  | some (v, rest) => if skipWS rest = [] then some v else none
  | none => none

/-- deserialize: the upload path's decoding plus its only validation, that
    the decoded value is a list. -/
def deserialize (s : String) : Option (List JsonVal) :=
  match parseJson s with
  | some (.arr l) => some l
  | _ => none

/-- Upload handler: replace the store with the decoded list; on a decode
    failure or a non-list value the store is left untouched. -/
def import_json (events : List JsonVal) (payload : String) : List JsonVal :=
  match parseJson payload with
  | some (.arr l) => l
  | _ => events

mutual
/-- No float/NaN/Infinity lexeme anywhere inside the value. -/
def noFloat : JsonVal → Bool
  | .numLex _ => false
  | .arr l => noFloatList l
  | .obj kvs => noFloatObj kvs
  | _ => true

/-- noFloat over array elements. -/
def noFloatList : List JsonVal → Bool
  | [] => true
  | v :: vs => noFloat v && noFloatList vs

/-- noFloat over object members. -/
def noFloatObj : List (String × JsonVal) → Bool
  | [] => true
  | (_, v) :: kvs => noFloat v && noFloatObj kvs
end

mutual
/-- Structural size of a value, bounding the reader fuel it needs. -/
def vsize : JsonVal → Nat
  | .arr l => 1 + lsize l
  | .obj kvs => 1 + osize kvs
  | _ => 1

/-- Size over array elements. -/
def lsize : List JsonVal → Nat
  | [] => 0
  | v :: vs => 1 + vsize v + lsize vs

/-- Size over object members. -/
def osize : List (String × JsonVal) → Nat
  | [] => 0
  | (_, v) :: kvs => 1 + vsize v + osize kvs
end

/-- Characters that may not directly follow a printed integer for the
    reader to stop there: digits and the fraction and exponent starters. -/
def numTail (c : Char) : Bool := c.isDigit || c = '.' || c = 'e' || c = 'E'

/-- The continuation after a printed value never starts with a numeric
    tail character (in printed JSON it is a comma, a newline or nothing).  -/
def restSafe : List Char → Prop
  | [] => True
  | c :: _ => numTail c = false

/-- A string JSON value. -/
def isStr : JsonVal → Bool
  | .str _ => true
  | _ => false

/-- An integer JSON value. -/
def isIntV : JsonVal → Bool
  | .int _ => true
  | _ => false

/-- A string-array JSON value. -/
def isStrArr : JsonVal → Bool
  | .arr l => l.all isStr
  | _ => false

/-- Declared type of an event field: string arrays for characters and
    categories, an integer for sort_index, strings everywhere else. -/
def wfVal (k : String) (v : JsonVal) : Bool :=
  if k = "characters" ∨ k = "categories" then isStrArr v
  else if k = "sort_index" then isIntV v
  else isStr v

/-- Well-formed event record: an object carrying exactly the declared
    fields in template order, each with its declared type. -/
def wfEvent : JsonVal → Bool
  | .obj kvs =>
    (kvs.map Prod.fst == ["id", "title", "date_text", "start_date", "end_date",
      "era", "story", "characters", "categories", "notes", "sort_index"]) &&
    kvs.all (fun kv => wfVal kv.1 kv.2)
  | _ => false

/-- Well-formed event collection. -/
def wfEvents (events : List JsonVal) : Bool := events.all wfEvent

/-- Concrete well-formed event record used as test data. -/
def evJson : JsonVal :=
  .obj [("id", .str "a1"), ("title", .str "Event"), ("date_text", .str "Spring"),
    ("start_date", .str "1842-05"), ("end_date", .str ""), ("era", .str "Sepia"),
    ("story", .str "Overmorrow"), ("characters", .arr [.str "Lira", .str "Bob"]),
    ("categories", .arr []), ("notes", .str "line1\nline2"), ("sort_index", .int (-3))]

-- ===================== Theorems =====================

theorem dedupeAux_eq (ps : List String) :
    ∀ seen, dedupeAux ps seen
      = dedupCI (ps.filter (fun p => decide (pyLower p ∉ seen))) := by
  induction ps with
  | nil => intro seen; simp [dedupeAux, dedupCI]
  | cons p ps ih =>
    intro seen
    by_cases hmem : pyLower p ∈ seen
    · rw [dedupeAux, if_pos hmem, List.filter_cons_of_neg (by simpa using hmem), ih]
    · rw [dedupeAux, if_neg hmem, List.filter_cons_of_pos (by simpa using hmem),
        dedupCI, ih]
      congr 1
      rw [List.filter_filter]
      congr 1
      apply List.filter_congr
      intro x _
      by_cases hx : pyLower x = pyLower p
      · simp [hx, hmem]
      · simp [List.mem_cons, hx]

theorem dedupCI_sublist : ∀ l, (dedupCI l).Sublist l := by
  intro l
  induction l using dedupCI.induct with
  | case1 => simp [dedupCI]
  | case2 x xs ih =>
    rw [dedupCI]
    exact (ih.trans (List.filter_sublist _)).cons₂ x

theorem dedupCI_pairwise :
    ∀ l, (dedupCI l).Pairwise (fun a b => pyLower a ≠ pyLower b) := by
  intro l
  induction l using dedupCI.induct with
  | case1 => simp [dedupCI]
  | case2 x xs ih =>
    rw [dedupCI]
    refine List.pairwise_cons.mpr ⟨?_, ih⟩
    intro b hb
    have hmem := (dedupCI_sublist _).mem hb
    have hne : pyLower b ≠ pyLower x := by simpa using List.of_mem_filter hmem
    exact fun h => hne h.symm

theorem ensure_list_str_eq (s : String) :
    ensure_list (.str s) = dedupCI (strParts s) := by
  show dedupeAux (strParts s) [] = _
  rw [dedupeAux_eq]
  congr 1
  exact List.filter_eq_self.mpr (fun a _ => by simp)

theorem ensure_list_str_ciDistinct (s : String) : ciDistinct (ensure_list (.str s)) := by
  rw [ciDistinct, ensure_list_str_eq]
  exact dedupCI_pairwise _

/-- Claim C7: ensure_list maps None to [], returns a structured list
    unchanged (hence is idempotent on normalized lists), and normalizes a
    string to its comma-separated parts, trimmed, with empty parts dropped
    and case-insensitive duplicates removed keeping the first occurrence's
    casing and position; "Bob, bob, BOB, Alice" becomes ["Bob", "Alice"]. -/
theorem claim_C7 :
    ensure_list .noneVal = [] ∧
    (∀ l, ensure_list (.list l) = l) ∧
    (∀ s, ensure_list (.str s) = dedupCI (strParts s)) ∧
    (∀ s, (ensure_list (.str s)).Sublist (strParts s)) ∧
    (∀ s, (ensure_list (.str s)).Pairwise (fun a b => pyLower a ≠ pyLower b)) ∧
    ensure_list (.str "Bob, bob, BOB, Alice") = ["Bob", "Alice"] := by
  refine ⟨rfl, fun l => rfl, ensure_list_str_eq, ?_, ?_, by decide⟩
  · intro s; rw [ensure_list_str_eq]; exact dedupCI_sublist _
  · intro s; rw [ensure_list_str_eq]; exact dedupCI_pairwise _

/-- Claim C6: safe_parse_date tries year-month-day, year-month and year-only
    in that order with strict matching, returns the first success, and
    returns none (never an error) on empty, whitespace-only or unmatched
    input; "1999-13" and "2001-02-29" give no date, "2000-02-29" parses
    (leap year), and "1842" parses to January 1, 1842. -/
theorem claim_C6 :
    (∀ s : String, pyStrip s = "" → safe_parse_date s = none) ∧
    (∀ s d, strptimeYMD (pyStrip s).data = some d → safe_parse_date s = some d) ∧
    (∀ s d, strptimeYMD (pyStrip s).data = none →
      strptimeYM (pyStrip s).data = some d → safe_parse_date s = some d) ∧
    (∀ s d, strptimeYMD (pyStrip s).data = none →
      strptimeYM (pyStrip s).data = none →
      strptimeY (pyStrip s).data = some d → safe_parse_date s = some d) ∧
    (∀ s, strptimeYMD (pyStrip s).data = none →
      strptimeYM (pyStrip s).data = none →
      strptimeY (pyStrip s).data = none → safe_parse_date s = none) ∧
    safe_parse_date "1999-13" = none ∧
    safe_parse_date "2001-02-29" = none ∧
    safe_parse_date "2000-02-29" = some ⟨2000, 2, 29⟩ ∧
    safe_parse_date "1842" = some ⟨1842, 1, 1⟩ := by
  refine ⟨?_, ?_, ?_, ?_, ?_, by decide, by decide, by decide, by decide⟩
  · intro s h
    by_cases hs : s = ""
    · simp [safe_parse_date, hs]
    · simp only [safe_parse_date, if_neg hs, h]
      decide
  · intro s d h
    by_cases hs : s = ""
    · subst hs; simp [show strptimeYMD (pyStrip "").data = none from by decide] at h
    · simp only [safe_parse_date, if_neg hs, h]
  · intro s d h1 h2
    by_cases hs : s = ""
    · subst hs; simp [show strptimeYM (pyStrip "").data = none from by decide] at h2
    · simp only [safe_parse_date, if_neg hs, h1, h2]
  · intro s d h1 h2 h3
    by_cases hs : s = ""
    · subst hs; simp [show strptimeY (pyStrip "").data = none from by decide] at h3
    · simp only [safe_parse_date, if_neg hs, h1, h2, h3]
  · intro s h1 h2 h3
    by_cases hs : s = ""
    · simp [safe_parse_date, hs]
    · simp only [safe_parse_date, if_neg hs, h1, h2, h3]

/-- Witness for claim C6: concrete instantiations discharging the
    hypotheses of its universally quantified conjuncts. -/
theorem claim_C6_witness :
    safe_parse_date " " = none ∧
    safe_parse_date "1850-06-17" = some ⟨1850, 6, 17⟩ :=
  ⟨claim_C6.1 " " (by decide), claim_C6.2.1 "1850-06-17" ⟨1850, 6, 17⟩ (by decide)⟩

theorem eventMatches_iff (st er ch ca kw : String) (ev : Event) :
    eventMatches st er ch ca kw ev = true ↔
      (storyOK st ev ∧ eraOK er ev ∧ charOK ch ev ∧ catOK ca ev ∧ kwOK kw ev) := by
  unfold eventMatches storyOK eraOK charOK catOK kwOK
  split_ifs with h1 h2 h3 h4 h5 <;>
    simp_all [pyInStr, Bool.and_eq_true, bne_iff_ne, decide_eq_true_eq]
  tauto

/-- Claim C4: filtered_events keeps exactly the events, in input order,
    that satisfy every supplied criterion (trimmed equality on story/era,
    case-insensitive membership for character/category, case-insensitive
    substring search for the keyword); with all criteria empty the input
    list is returned unchanged. -/
theorem claim_C4 :
    (∀ l st er ch ca kw,
      filtered_events l st er ch ca kw = l.filter (fun e =>
        decide (storyOK st e ∧ eraOK er e ∧ charOK ch e ∧ catOK ca e ∧ kwOK kw e))) ∧
    (∀ l, filtered_events l "" "" "" "" "" = l) := by
  constructor
  · intro l st er ch ca kw
    apply List.filter_congr
    intro e _
    rw [Bool.eq_iff_iff]
    simp only [decide_eq_true_eq]
    exact eventMatches_iff st er ch ca kw e
  · intro l
    apply List.filter_eq_self.mpr
    intro e _
    rw [eventMatches_iff]
    refine ⟨Or.inl rfl, Or.inl rfl, Or.inl rfl, Or.inl rfl, Or.inl rfl⟩

theorem dateLT_iff (a b : Date) :
    dateLT a b = true ↔
      (a.year < b.year ∨ (a.year = b.year ∧
        (a.month < b.month ∨ (a.month = b.month ∧ a.day < b.day)))) := by
  simp [dateLT, Bool.or_eq_true, Bool.and_eq_true, decide_eq_true_eq, beq_iff_eq]

theorem keyLE_iff (a b : Date × Int × String) :
    keyLE a b = true ↔
      (dateLT a.1 b.1 = true ∨ (a.1 = b.1 ∧
        (a.2.1 < b.2.1 ∨ (a.2.1 = b.2.1 ∧ a.2.2 ≤ b.2.2)))) := by
  simp [keyLE, Bool.or_eq_true, Bool.and_eq_true, decide_eq_true_eq, beq_iff_eq]

theorem dateLT_or_of_ne {a b : Date} (h : a ≠ b) :
    dateLT a b = true ∨ dateLT b a = true := by
  obtain ⟨y1, m1, d1⟩ := a
  obtain ⟨y2, m2, d2⟩ := b
  rw [dateLT_iff, dateLT_iff]
  simp only [ne_eq, Date.mk.injEq, not_and] at h
  dsimp only
  omega

theorem keyLE_total (a b : Date × Int × String) :
    keyLE a b = true ∨ keyLE b a = true := by
  rw [keyLE_iff, keyLE_iff]
  by_cases hd : a.1 = b.1
  · by_cases hi : a.2.1 = b.2.1
    · rcases le_total a.2.2 b.2.2 with hs | hs
      · exact Or.inl (Or.inr ⟨hd, Or.inr ⟨hi, hs⟩⟩)
      · exact Or.inr (Or.inr ⟨hd.symm, Or.inr ⟨hi.symm, hs⟩⟩)
    · rcases lt_or_gt_of_ne hi with h | h
      · exact Or.inl (Or.inr ⟨hd, Or.inl h⟩)
      · exact Or.inr (Or.inr ⟨hd.symm, Or.inl h⟩)
  · rcases dateLT_or_of_ne hd with h | h
    · exact Or.inl (Or.inl h)
    · exact Or.inr (Or.inl h)

theorem dateLT_trans {a b c : Date} (h1 : dateLT a b = true) (h2 : dateLT b c = true) :
    dateLT a c = true := by
  rw [dateLT_iff] at h1 h2 ⊢
  obtain ⟨y1, m1, d1⟩ := a
  obtain ⟨y2, m2, d2⟩ := b
  obtain ⟨y3, m3, d3⟩ := c
  simp only at h1 h2 ⊢
  omega

theorem keyLE_trans {a b c : Date × Int × String}
    (h1 : keyLE a b = true) (h2 : keyLE b c = true) : keyLE a c = true := by
  rw [keyLE_iff] at h1 h2 ⊢
  rcases h1 with hd1 | ⟨he1, hr1⟩
  · rcases h2 with hd2 | ⟨he2, _⟩
    · exact Or.inl (dateLT_trans hd1 hd2)
    · exact Or.inl (he2 ▸ hd1)
  · rcases h2 with hd2 | ⟨he2, hr2⟩
    · exact Or.inl (he1 ▸ hd2)
    · refine Or.inr ⟨he1.trans he2, ?_⟩
      rcases hr1 with hi1 | ⟨hie1, hs1⟩
      · rcases hr2 with hi2 | ⟨hie2, _⟩
        · exact Or.inl (lt_trans hi1 hi2)
        · exact Or.inl (hie2 ▸ hi1)
      · rcases hr2 with hi2 | ⟨hie2, hs2⟩
        · exact Or.inl (hie1 ▸ hi2)
        · exact Or.inr ⟨hie1.trans hie2, le_trans hs1 hs2⟩

/-- Claim C1: sorted_events is a permutation of its input, sorted by the
    composite key (parsed start date with the maximal sentinel for
    unparseable dates, then sort_index, then lowercased title); every
    permutation of the three test events dated 1820-06, 1850 and ""
    sorts to 1820-06, 1850, then the empty date. -/
theorem claim_C1 :
    (∀ l, (sorted_events l).Perm l) ∧
    (∀ l, (sorted_events l).Pairwise (fun a b => keyLE (sortKey a) (sortKey b) = true)) ∧
    (∀ e, sortKey e =
      ((safe_parse_date (e.start_date.getD "")).getD ⟨9999, 12, 31⟩,
        e.sort_index.getD 0, pyLower (e.title.getD ""))) ∧
    sorted_events [evA, evB, evC] = [evA, evB, evC] ∧
    sorted_events [evA, evC, evB] = [evA, evB, evC] ∧
    sorted_events [evB, evA, evC] = [evA, evB, evC] ∧
    sorted_events [evB, evC, evA] = [evA, evB, evC] ∧
    sorted_events [evC, evA, evB] = [evA, evB, evC] ∧
    sorted_events [evC, evB, evA] = [evA, evB, evC] := by
  haveI : IsTotal Event eventLE := ⟨fun a b => keyLE_total (sortKey a) (sortKey b)⟩
  haveI : IsTrans Event eventLE := ⟨fun _ _ _ => keyLE_trans⟩
  refine ⟨?_, ?_, fun e => rfl, by decide, by decide, by decide, by decide, by decide,
    by decide⟩
  · intro l; exact List.perm_insertionSort eventLE l
  · intro l; exact List.sorted_insertionSort eventLE l

theorem sortKey_fillDefaults (e : Event) : sortKey (fillDefaults e) = sortKey e := rfl

theorem eventMatches_fillDefaults (st er ch ca kw : String) (e : Event) :
    eventMatches st er ch ca kw (fillDefaults e) = eventMatches st er ch ca kw e := rfl

theorem orderedInsert_map_fillDefaults (x : Event) (l : List Event) :
    List.orderedInsert eventLE (fillDefaults x) (l.map fillDefaults)
      = (List.orderedInsert eventLE x l).map fillDefaults := by
  induction l with
  | nil => rfl
  | cons b l ih =>
    by_cases h : eventLE x b
    · have h2 : eventLE (fillDefaults x) (fillDefaults b) := by
        simpa [eventLE, sortKey_fillDefaults] using h
      simp [List.orderedInsert, h, h2]
    · have h2 : ¬ eventLE (fillDefaults x) (fillDefaults b) := by
        simpa [eventLE, sortKey_fillDefaults] using h
      simp [List.orderedInsert, h, h2, ih]

/-- Claim C10: filtered_events and sorted_events read absent fields as zero
    values: neither the match predicate nor the sort key distinguishes an
    event from its zero-filled completion, and both functions commute with
    zero-filling a whole list. (Totality of the Lean embedding reflects
    that neither function can raise.) -/
theorem claim_C10 :
    (∀ st er ch ca kw e,
      eventMatches st er ch ca kw (fillDefaults e) = eventMatches st er ch ca kw e) ∧
    (∀ e, sortKey (fillDefaults e) = sortKey e) ∧
    (∀ l st er ch ca kw,
      filtered_events (l.map fillDefaults) st er ch ca kw
        = (filtered_events l st er ch ca kw).map fillDefaults) ∧
    (∀ l, sorted_events (l.map fillDefaults) = (sorted_events l).map fillDefaults) := by
  refine ⟨fun _ _ _ _ _ _ => rfl, fun _ => rfl, ?_, ?_⟩
  · intro l st er ch ca kw
    unfold filtered_events
    rw [List.filter_map]
    rfl
  · intro l
    unfold sorted_events
    induction l with
    | nil => rfl
    | cons x l ih =>
      simp only [List.map_cons, List.insertionSort]
      rw [ih, orderedInsert_map_fillDefaults]

/-- Claim C5: the chart projection emits, in input order, exactly one row
    per event whose start_date parses and none otherwise; a row's start is
    the parsed start_date, its end is the parsed end_date or else the
    start, and its category label is the joined categories or
    "Uncategorized" when that string is empty. The projection is a pure
    function: it mutates nothing. -/
theorem claim_C5 :
    (∀ l, chart_rows l
      = l.filterMap (fun e => (safe_parse_date (e.start_date.getD "")).map (rowOf e))) ∧
    (∀ e d, safe_parse_date (e.start_date.getD "") = some d →
      (rowOf e d).rStart = d ∧
      (safe_parse_date (e.end_date.getD "") = none → (rowOf e d).rEnd = d) ∧
      (∀ d2, safe_parse_date (e.end_date.getD "") = some d2 → (rowOf e d).rEnd = d2) ∧
      (rowOf e d).rCategory =
        (if pyJoin ", " e.cats = "" then "Uncategorized" else pyJoin ", " e.cats)) ∧
    (∀ e, safe_parse_date (e.start_date.getD "") = none → chart_rows [e] = []) := by
  refine ⟨?_, ?_, ?_⟩
  · intro l
    induction l with
    | nil => rfl
    | cons e rest ih =>
      rw [List.filterMap_cons]
      cases h : safe_parse_date (e.start_date.getD "") with
      | none => simp only [chart_rows, h, ih, Option.map_none']
      | some d => simp only [chart_rows, h, ih, Option.map_some']
  · intro e d _
    refine ⟨rfl, ?_, ?_, rfl⟩
    · intro h; simp [rowOf, h]
    · intro d2 h; simp [rowOf, h]
  · intro e h
    rw [chart_rows, h]
    rfl

/-- Witness for claim C5: an event dated 1900 with empty end date appears
    with end equal to start equal to 1900-01-01; an event with empty start
    date yields no row. -/
theorem claim_C5_witness :
    (rowOf ev1900 ⟨1900, 1, 1⟩).rEnd = ⟨1900, 1, 1⟩ ∧ chart_rows [evNoDate] = [] :=
  ⟨((claim_C5.2.1 ev1900 ⟨1900, 1, 1⟩ (by decide)).2.1 (by decide)),
   claim_C5.2.2 evNoDate (by decide)⟩

/-- Counterexample to claim C2 as stated: with edit id "ghost" absent from
    the (empty) store and a nonempty title, the save flow appends a new
    event, so the store does not equal the store before. -/
theorem claim_C2_counterexample :
    save_event "fresh-id" [] (some "ghost") f0 ≠ [] := by decide

/-- Claim C2 (amended): updating by an id absent from the store signals no
    error and alters or creates no stored event in the lookup and
    replacement steps — the lookup yields none and the by-id replacement
    leaves the store unchanged; however the save flow then falls back to
    an add, appending exactly one new event built from the form (so the
    whole flow is a no-op only when the title check already rejects). -/
theorem claim_C2 (events : List Event) (eid : String) (f : FormFields) (fresh : String)
    (h : ∀ e ∈ events, e.id ≠ some eid) :
    find_event events eid = none ∧
    (∀ p, update_replace events eid p = events) ∧
    (pyStrip f.title = "" → save_event fresh events (some eid) f = events) ∧
    (pyStrip f.title ≠ "" →
      save_event fresh events (some eid) f = events ++ [mk_payload fresh none f]) := by
  have hfind : find_event events eid = none := by
    apply List.find?_eq_none.mpr
    intro e he
    simpa using h e he
  refine ⟨hfind, ?_, ?_, ?_⟩
  · intro p
    unfold update_replace
    have hid : ∀ e ∈ events, (if e.id == some eid then p else e) = e := by
      intro e he
      rw [if_neg]
      simpa using h e he
    calc events.map (fun e => if e.id == some eid then p else e)
        = events.map id := List.map_congr_left hid
      _ = events := List.map_id events
  · intro ht
    unfold save_event
    rw [if_pos ht]
  · intro ht
    unfold save_event
    rw [if_neg ht]
    simp only [hfind]

/-- Witness for claim C2: a concrete store holding one event and the
    absent edit id "ghost". -/
theorem claim_C2_witness :
    find_event [evA] "ghost" = none ∧
    update_replace [evA] "ghost" evDup = [evA] ∧
    save_event "fresh-id" [evA] (some "ghost") f0
      = [evA] ++ [mk_payload "fresh-id" none f0] := by
  obtain ⟨h1, h2, _, h4⟩ := claim_C2 [evA] "ghost" f0 "fresh-id" (by decide)
  exact ⟨h1, h2 evDup, h4 (by decide)⟩

theorem mk_payload_ciDistinct (fresh : String) (editing : Option Event) (f : FormFields) :
    ciDistinct (mk_payload fresh editing f).chars ∧
      ciDistinct (mk_payload fresh editing f).cats :=
  ⟨ensure_list_str_ciDistinct f.characters_text, ensure_list_str_ciDistinct f.categories_text⟩

theorem save_event_inv (fresh : String) (events : List Event) (edit_id : Option String)
    (f : FormFields) (h : storeCIInv events) :
    storeCIInv (save_event fresh events edit_id f) := by
  unfold save_event
  split_ifs with ht
  · exact h
  · cases hed : (match edit_id with
      | none => none
      | some eid => find_event events eid : Option Event) with
    | none =>
      simp only [hed]
      intro e he
      rcases List.mem_append.mp he with hold | hnew
      · exact h e hold
      · rcases List.mem_singleton.mp hnew with rfl
        exact mk_payload_ciDistinct _ _ _
    | some ev =>
      simp only [hed]
      intro e he
      rcases List.mem_map.mp he with ⟨x, hx, hxe⟩
      by_cases hc : x.id == ev.id
      · rw [if_pos hc] at hxe
        exact hxe ▸ mk_payload_ciDistinct _ _ _
      · rw [if_neg hc] at hxe
        exact hxe ▸ h x hx

/-- Counterexample to claim C9 as stated: a bulk load installs records
    verbatim, so loading one event whose characters are ["Bob", "bob"]
    leaves the store violating the case-insensitive-distinctness
    invariant. -/
theorem claim_C9_counterexample :
    ¬ storeCIInv (runOps [] [.load [evDup]]) := by
  intro h
  have h2 : List.Pairwise (fun a b => pyLower a ≠ pyLower b) ["Bob", "bob"] :=
    (h evDup (List.mem_singleton.mpr rfl)).1
  exact (List.pairwise_cons.mp h2).1 "bob" (List.mem_singleton.mpr rfl) (by decide)

/-- Claim C9 (amended): starting from an invariant-satisfying store (the
    initial store is empty), any sequence of save and delete operations
    keeps every stored event's characters and categories free of
    case-insensitive duplicates; the bulk load, however, installs the
    decoded upload verbatim without validation and can break the
    invariant. -/
theorem claim_C9 :
    storeCIInv [] ∧
    (∀ store data, step store (.load data) = data) ∧
    (∀ store ops, storeCIInv store → (∀ op ∈ ops, op.isLoad = false) →
      storeCIInv (runOps store ops)) := by
  refine ⟨fun e he => absurd he (List.not_mem_nil e), fun _ _ => rfl, ?_⟩
  intro store ops
  induction ops generalizing store with
  | nil => intro h _; exact h
  | cons op ops ih =>
    intro h hops
    have hstep : storeCIInv (step store op) := by
      cases op with
      | save fresh editId f => exact save_event_inv fresh store editId f h
      | del eid =>
        intro e he
        exact h e (List.mem_of_mem_filter he)
      | load data =>
        exact absurd (hops (.load data) (List.mem_cons_self _ _)) (by simp [StoreOp.isLoad])
    exact ih (step store op) hstep (fun o ho => hops o (List.mem_cons_of_mem _ ho))

/-- Witness for claim C9: an add followed by a delete, run from the empty
    store, keeps the invariant. -/
theorem claim_C9_witness :
    storeCIInv (runOps [] [.save "u1" none f0, .del "ghost"]) := by
  apply claim_C9.2.2 [] [.save "u1" none f0, .del "ghost"]
  · intro e he; exact absurd he (List.not_mem_nil e)
  · intro op ho
    rcases List.mem_cons.mp ho with rfl | ho2
    · rfl
    · rcases List.mem_cons.mp ho2 with rfl | ho3
      · rfl
      · exact absurd ho3 (List.not_mem_nil op)

/-- Claim C8: a payload that fails to decode, or decodes to anything but a
    list, is rejected with the store left exactly as it was; a payload
    decoding to a list replaces the store with that list. -/
theorem claim_C8 :
    (∀ store payload, parseJson payload = none → import_json store payload = store) ∧
    (∀ store payload v, parseJson payload = some v → (∀ l, v ≠ JsonVal.arr l) →
      import_json store payload = store) ∧
    (∀ store payload l, parseJson payload = some (.arr l) →
      import_json store payload = l) := by
  refine ⟨?_, ?_, ?_⟩
  · intro store payload h
    unfold import_json
    rw [h]
  · intro store payload v h hv
    unfold import_json
    rw [h]
    cases v with
    | arr l => exact absurd rfl (hv l)
    | str s => rfl
    | int n => rfl
    | bool b => rfl
    | null => rfl
    | numLex s => rfl
    | obj kvs => rfl
  · intro store payload l h
    unfold import_json
    rw [h]

/-- Witness for claim C8: a truncated payload fails to decode and a bare
    number decodes to a non-list; both leave a one-event store unchanged. -/
theorem claim_C8_witness :
    import_json [JsonVal.null] "[" = [JsonVal.null] ∧
    import_json [JsonVal.null] "42" = [JsonVal.null] := by
  refine ⟨claim_C8.1 [JsonVal.null] "[" rfl,
    claim_C8.2.1 [JsonVal.null] "42" (.int 42) rfl ?_⟩
  intro l h
  exact JsonVal.noConfusion h

-- Character-level facts used by the string round trip.

theorem toNat_ofNat_valid {n : Nat} (h : n.isValidChar) : (Char.ofNat n).toNat = n := by
  rw [Char.ofNat, dif_pos h]
  rfl

theorem char_valid_nat (c : Char) :
    c.toNat < 0xd800 ∨ (0xdfff < c.toNat ∧ c.toNat < 0x110000) := by
  rcases c.valid with h | ⟨h1, h2⟩
  · exact Or.inl (UInt32.toNat_lt_of_lt (by decide) h)
  · exact Or.inr ⟨UInt32.lt_toNat_of_lt (by decide) h1,
      UInt32.toNat_lt_of_lt (by decide) h2⟩

theorem char_eq_of_toNat_eq {a b : Char} (h : a.toNat = b.toNat) : a = b := by
  have h2 := congrArg Char.ofNat h
  rwa [Char.ofNat_toNat, Char.ofNat_toNat] at h2

theorem skipWS_replicate_space (k : Nat) (cs : List Char) :
    skipWS (List.replicate k ' ' ++ cs) = skipWS cs := by
  induction k with
  | zero => rfl
  | succ k ih => simpa [skipWS, isJsonWS] using ih

theorem skipWS_nlIndent (lvl : Nat) (cs : List Char) :
    skipWS (nlIndent lvl ++ cs) = skipWS cs := by
  rw [nlIndent]
  simpa [skipWS, isJsonWS] using skipWS_replicate_space (2 * lvl) cs

theorem skipWS_not_ws {c : Char} (cs : List Char) (h : isJsonWS c = false) :
    skipWS (c :: cs) = c :: cs := by
  simp [skipWS, h]

theorem hexVal_hexDigitChar {n : Nat} (h : n < 16) :
    hexVal? (hexDigitChar n) = some n := by
  interval_cases n <;> decide

theorem parse4Hex_hex4 {u : Nat} (h : u < 0x10000) (rest : List Char) :
    parse4Hex (hex4 u ++ rest) = some (u, rest) := by
  show parse4Hex (hexDigitChar (u / 4096 % 16) :: hexDigitChar (u / 256 % 16) ::
    hexDigitChar (u / 16 % 16) :: hexDigitChar (u % 16) :: rest) = some (u, rest)
  rw [parse4Hex, hexVal_hexDigitChar (by omega), hexVal_hexDigitChar (by omega),
    hexVal_hexDigitChar (by omega), hexVal_hexDigitChar (by omega)]
  have hv : ((u / 4096 % 16 * 16 + u / 256 % 16) * 16 + u / 16 % 16) * 16 + u % 16 = u := by
    omega
  dsimp only
  rw [hv]

-- Stepping lemmas for the string scanner, one per escape shape.

theorem scanString_quote (k : Nat) (cs : List Char) :
    scanString (k + 1) ('"' :: cs) = some ([], cs) := by
  simp [scanString]

theorem scanString_ord (k : Nat) (c : Char) (cs : List Char)
    (h1 : c ≠ '"') (h2 : c ≠ '\\') (h3 : 0x20 ≤ c.toNat) :
    scanString (k + 1) (c :: cs)
      = match scanString k cs with
        | some (out, rest) => some (c :: out, rest)
        | none => none := by
  simp only [scanString]
  rw [if_neg h1, if_neg h2, if_neg (by omega)]

theorem scanString_named (k : Nat) (e d : Char) (cs : List Char)
    (he : escLookup e = some d) (hu : e ≠ 'u') :
    scanString (k + 1) ('\\' :: e :: cs)
      = match scanString k cs with
        | some (out, rest) => some (d :: out, rest)
        | none => none := by
  simp only [scanString, if_true]
  rw [if_neg (show ¬('\\' : Char) = '"' by decide), if_neg hu, he]

theorem scanString_u_bmp (k : Nat) (u : Nat) (cs : List Char)
    (hu : u < 0x10000) (h1 : ¬(0xd800 ≤ u ∧ u ≤ 0xdbff))
    (h2 : ¬(0xdc00 ≤ u ∧ u ≤ 0xdfff)) :
    scanString (k + 1) ('\\' :: 'u' :: (hex4 u ++ cs))
      = match scanString k cs with
        | some (out, rest) => some (Char.ofNat u :: out, rest)
        | none => none := by
  simp only [scanString, if_true]
  rw [if_neg (show ¬('\\' : Char) = '"' by decide), parse4Hex_hex4 hu]
  dsimp only
  rw [if_neg h1, if_neg h2]

theorem scanString_u_pair (k : Nat) (hi lo : Nat) (cs : List Char)
    (hhi : 0xd800 ≤ hi ∧ hi ≤ 0xdbff) (hlo : 0xdc00 ≤ lo ∧ lo ≤ 0xdfff) :
    scanString (k + 1) ('\\' :: 'u' :: (hex4 hi ++ ('\\' :: 'u' :: (hex4 lo ++ cs))))
      = match scanString k cs with
        | some (out, rest) =>
          some (Char.ofNat (0x10000 + (hi - 0xd800) * 0x400 + (lo - 0xdc00)) :: out, rest)
        | none => none := by
  simp only [scanString, if_true]
  rw [if_neg (show ¬('\\' : Char) = '"' by decide), parse4Hex_hex4 (by omega)]
  dsimp only
  rw [if_pos hhi]
  rw [if_pos (show ('\\' : Char) = '\\' ∧ ('u' : Char) = 'u' from ⟨rfl, rfl⟩),
    parse4Hex_hex4 (by omega)]
  dsimp only
  rw [if_pos hlo]

/-- Scanning the escaped body of a string recovers exactly the original
    characters and stops after the closing quote, for any fuel above the
    escaped length. -/
theorem scanString_escList : ∀ (cs : List Char) (k : Nat) (rest : List Char),
    (escList cs).length < k →
    scanString k (escList cs ++ ('"' :: rest)) = some (cs, rest) := by
  intro cs
  induction cs with
  | nil =>
    intro k rest hk
    obtain ⟨k', rfl⟩ : ∃ k', k = k' + 1 := ⟨k - 1, by omega⟩
    exact scanString_quote k' rest
  | cons c cs ih =>
    intro k rest hk
    rw [escList, List.length_append] at hk
    rw [escList, List.append_assoc]
    by_cases h1 : c = '"'
    · have he : escapeChar c = ['\\', '"'] := by rw [h1]; decide
      have hlen : (escapeChar c).length = 2 := by rw [he]; rfl
      obtain ⟨k', rfl⟩ : ∃ k', k = k' + 1 := ⟨k - 1, by omega⟩
      rw [he]
      rw [show (['\\', '"'] : List Char) ++ (escList cs ++ '"' :: rest)
          = '\\' :: '"' :: (escList cs ++ '"' :: rest) from rfl]
      rw [scanString_named k' '"' '"' _ (by decide) (by decide),
        ih k' rest (by omega), h1]
    · by_cases h2 : c = '\\'
      · have he : escapeChar c = ['\\', '\\'] := by rw [h2]; decide
        have hlen : (escapeChar c).length = 2 := by rw [he]; rfl
        obtain ⟨k', rfl⟩ : ∃ k', k = k' + 1 := ⟨k - 1, by omega⟩
        rw [he]
        rw [show (['\\', '\\'] : List Char) ++ (escList cs ++ '"' :: rest)
            = '\\' :: '\\' :: (escList cs ++ '"' :: rest) from rfl]
        rw [scanString_named k' '\\' '\\' _ (by decide) (by decide),
          ih k' rest (by omega), h2]
      · by_cases h3 : c = '\n'
        · have he : escapeChar c = ['\\', 'n'] := by rw [h3]; decide
          have hlen : (escapeChar c).length = 2 := by rw [he]; rfl
          obtain ⟨k', rfl⟩ : ∃ k', k = k' + 1 := ⟨k - 1, by omega⟩
          rw [he]
          rw [show (['\\', 'n'] : List Char) ++ (escList cs ++ '"' :: rest)
              = '\\' :: 'n' :: (escList cs ++ '"' :: rest) from rfl]
          rw [scanString_named k' 'n' '\n' _ (by decide) (by decide),
            ih k' rest (by omega), h3]
        · by_cases h4 : c = '\r'
          · have he : escapeChar c = ['\\', 'r'] := by rw [h4]; decide
            have hlen : (escapeChar c).length = 2 := by rw [he]; rfl
            obtain ⟨k', rfl⟩ : ∃ k', k = k' + 1 := ⟨k - 1, by omega⟩
            rw [he]
            rw [show (['\\', 'r'] : List Char) ++ (escList cs ++ '"' :: rest)
                = '\\' :: 'r' :: (escList cs ++ '"' :: rest) from rfl]
            rw [scanString_named k' 'r' '\r' _ (by decide) (by decide),
              ih k' rest (by omega), h4]
          · by_cases h5 : c = '\t'
            · have he : escapeChar c = ['\\', 't'] := by rw [h5]; decide
              have hlen : (escapeChar c).length = 2 := by rw [he]; rfl
              obtain ⟨k', rfl⟩ : ∃ k', k = k' + 1 := ⟨k - 1, by omega⟩
              rw [he]
              rw [show (['\\', 't'] : List Char) ++ (escList cs ++ '"' :: rest)
                  = '\\' :: 't' :: (escList cs ++ '"' :: rest) from rfl]
              rw [scanString_named k' 't' '\t' _ (by decide) (by decide),
                ih k' rest (by omega), h5]
            · by_cases h6 : c.toNat = 8
              · have hc : c = Char.ofNat 8 :=
                  char_eq_of_toNat_eq (by rw [h6, toNat_ofNat_valid (Or.inl (by omega))])
                have he : escapeChar c = ['\\', 'b'] := by
                  rw [escapeChar, if_neg h1, if_neg h2, if_neg h3, if_neg h4, if_neg h5,
                    if_pos h6]
                have hlen : (escapeChar c).length = 2 := by rw [he]; rfl
                obtain ⟨k', rfl⟩ : ∃ k', k = k' + 1 := ⟨k - 1, by omega⟩
                rw [he]
                rw [show (['\\', 'b'] : List Char) ++ (escList cs ++ '"' :: rest)
                    = '\\' :: 'b' :: (escList cs ++ '"' :: rest) from rfl]
                rw [scanString_named k' 'b' (Char.ofNat 8) _ (by decide) (by decide),
                  ih k' rest (by omega), hc]
              · by_cases h7 : c.toNat = 12
                · have hc : c = Char.ofNat 12 :=
                    char_eq_of_toNat_eq (by rw [h7, toNat_ofNat_valid (Or.inl (by omega))])
                  have he : escapeChar c = ['\\', 'f'] := by
                    rw [escapeChar, if_neg h1, if_neg h2, if_neg h3, if_neg h4, if_neg h5,
                      if_neg h6, if_pos h7]
                  have hlen : (escapeChar c).length = 2 := by rw [he]; rfl
                  obtain ⟨k', rfl⟩ : ∃ k', k = k' + 1 := ⟨k - 1, by omega⟩
                  rw [he]
                  rw [show (['\\', 'f'] : List Char) ++ (escList cs ++ '"' :: rest)
                      = '\\' :: 'f' :: (escList cs ++ '"' :: rest) from rfl]
                  rw [scanString_named k' 'f' (Char.ofNat 12) _ (by decide) (by decide),
                    ih k' rest (by omega), hc]
                · by_cases h8 : 0x20 ≤ c.toNat ∧ c.toNat ≤ 0x7e
                  · have he : escapeChar c = [c] := by
                      rw [escapeChar, if_neg h1, if_neg h2, if_neg h3, if_neg h4,
                        if_neg h5, if_neg h6, if_neg h7, if_pos h8]
                    have hlen : (escapeChar c).length = 1 := by rw [he]; rfl
                    obtain ⟨k', rfl⟩ : ∃ k', k = k' + 1 := ⟨k - 1, by omega⟩
                    rw [he]
                    rw [show ([c] : List Char) ++ (escList cs ++ '"' :: rest)
                        = c :: (escList cs ++ '"' :: rest) from rfl]
                    rw [scanString_ord k' c _ h1 h2 h8.1, ih k' rest (by omega)]
                  · by_cases h9 : c.toNat < 0x10000
                    · have he : escapeChar c = '\\' :: 'u' :: hex4 c.toNat := by
                        rw [escapeChar, if_neg h1, if_neg h2, if_neg h3, if_neg h4,
                          if_neg h5, if_neg h6, if_neg h7, if_neg h8, if_pos h9]
                      have hlen : (escapeChar c).length = 6 := by rw [he]; rfl
                      obtain ⟨k', rfl⟩ : ∃ k', k = k' + 1 := ⟨k - 1, by omega⟩
                      have hval := char_valid_nat c
                      rw [he]
                      rw [show ('\\' :: 'u' :: hex4 c.toNat) ++ (escList cs ++ '"' :: rest)
                          = '\\' :: 'u' :: (hex4 c.toNat ++ (escList cs ++ '"' :: rest))
                          from rfl]
                      rw [scanString_u_bmp k' c.toNat _ h9 (by omega) (by omega),
                        ih k' rest (by omega), Char.ofNat_toNat]
                    · have he : escapeChar c
                          = ('\\' :: 'u' :: hex4 (0xd800 + (c.toNat - 0x10000) / 0x400)) ++
                            ('\\' :: 'u' :: hex4 (0xdc00 + (c.toNat - 0x10000) % 0x400)) := by
                        rw [escapeChar, if_neg h1, if_neg h2, if_neg h3, if_neg h4,
                          if_neg h5, if_neg h6, if_neg h7, if_neg h8, if_neg h9]
                      have hlen : (escapeChar c).length = 12 := by rw [he]; rfl
                      obtain ⟨k', rfl⟩ : ∃ k', k = k' + 1 := ⟨k - 1, by omega⟩
                      have hval := char_valid_nat c
                      rw [he]
                      rw [show (('\\' :: 'u' :: hex4 (0xd800 + (c.toNat - 0x10000) / 0x400)) ++
                            ('\\' :: 'u' :: hex4 (0xdc00 + (c.toNat - 0x10000) % 0x400))) ++
                            (escList cs ++ '"' :: rest)
                          = '\\' :: 'u' :: (hex4 (0xd800 + (c.toNat - 0x10000) / 0x400) ++
                            ('\\' :: 'u' :: (hex4 (0xdc00 + (c.toNat - 0x10000) % 0x400) ++
                            (escList cs ++ '"' :: rest)))) from by simp]
                      rw [scanString_u_pair k' _ _ _ (by omega) (by omega),
                        ih k' rest (by omega)]
                      have harg : 0x10000 +
                            (0xd800 + (c.toNat - 0x10000) / 0x400 - 0xd800) * 0x400 +
                            (0xdc00 + (c.toNat - 0x10000) % 0x400 - 0xdc00)
                          = c.toNat := by omega
                      rw [harg, Char.ofNat_toNat]

-- Decimal printing and reading round trip.

theorem natToRevDigits_fuelIndep : ∀ n f g : Nat, n < f → n < g →
    natToRevDigits f n = natToRevDigits g n := by
  intro n
  induction n using Nat.strong_induction_on with
  | _ n ih =>
    intro f g hf hg
    obtain ⟨f', rfl⟩ : ∃ f', f = f' + 1 := ⟨f - 1, by omega⟩
    obtain ⟨g', rfl⟩ : ∃ g', g = g' + 1 := ⟨g - 1, by omega⟩
    rw [natToRevDigits, natToRevDigits]
    by_cases h : n < 10
    · rw [if_pos h, if_pos h]
    · rw [if_neg h, if_neg h]
      congr 1
      exact ih (n / 10) (by omega) f' g' (by omega) (by omega)

theorem printNat_lt10 {n : Nat} (h : n < 10) : printNat n = [Char.ofNat (48 + n)] := by
  rw [printNat, natToRevDigits, if_pos h]
  rfl

theorem printNat_ge10 {n : Nat} (h : 10 ≤ n) :
    printNat n = printNat (n / 10) ++ [Char.ofNat (48 + n % 10)] := by
  rw [printNat, natToRevDigits, if_neg (by omega),
    natToRevDigits_fuelIndep (n / 10) n (n / 10 + 1) (by omega) (by omega)]
  simp [printNat, List.reverse_cons]

theorem digitChar_isDigit {d : Nat} (h : d < 10) :
    (Char.ofNat (48 + d)).isDigit = true := by
  interval_cases d <;> decide

theorem digitChar_toNat {d : Nat} (h : d < 10) : (Char.ofNat (48 + d)).toNat = 48 + d :=
  toNat_ofNat_valid (Or.inl (by omega))

theorem printNat_head : ∀ n : Nat, 1 ≤ n → ∃ c ds, printNat n = c :: ds ∧
    ('1' ≤ c ∧ c ≤ '9') ∧ c.isDigit = true ∧ (∀ d ∈ ds, d.isDigit = true) := by
  intro n
  induction n using Nat.strong_induction_on with
  | _ n ih =>
    intro hn
    by_cases h : n < 10
    · refine ⟨Char.ofNat (48 + n), [], by rw [printNat_lt10 h], ?_, ?_, by simp⟩
      · interval_cases n <;> exact ⟨by decide, by decide⟩
      · exact digitChar_isDigit h
    · obtain ⟨c, ds, hshape, hc9, hcdig, hds⟩ := ih (n / 10) (by omega) (by omega)
      refine ⟨c, ds ++ [Char.ofNat (48 + n % 10)], ?_, hc9, hcdig, ?_⟩
      · rw [printNat_ge10 (by omega), hshape]
        rfl
      · intro d hd
        rcases List.mem_append.mp hd with h1 | h1
        · exact hds d h1
        · rcases List.mem_singleton.mp h1 with rfl
          exact digitChar_isDigit (by omega)

theorem digitsVal_printNat : ∀ n : Nat, digitsVal (printNat n) = n := by
  intro n
  induction n using Nat.strong_induction_on with
  | _ n ih =>
    by_cases h : n < 10
    · rw [printNat_lt10 h]
      show 0 * 10 + ((Char.ofNat (48 + n)).toNat - 48) = n
      rw [digitChar_toNat h]
      omega
    · rw [printNat_ge10 (by omega)]
      calc digitsVal (printNat (n / 10) ++ [Char.ofNat (48 + n % 10)])
          = digitsVal (printNat (n / 10)) * 10 +
              ((Char.ofNat (48 + n % 10)).toNat - 48) := by
            rw [digitsVal, digitsVal, List.foldl_append]
            rfl
        _ = n := by
            rw [ih (n / 10) (by omega), digitChar_toNat (by omega)]
            omega

theorem spanDigits_append : ∀ (ds : List Char) (rest : List Char),
    (∀ c ∈ ds, c.isDigit = true) →
    (match rest with | [] => True | c :: _ => c.isDigit = false) →
    spanDigits (ds ++ rest) = (ds, rest) := by
  intro ds
  induction ds with
  | nil =>
    intro rest _ hrest
    cases rest with
    | nil => rfl
    | cons c r => simp [spanDigits, hrest]
  | cons c ds ih =>
    intro rest hds hrest
    have hc : c.isDigit = true := hds c (List.mem_cons_self c ds)
    rw [List.cons_append, spanDigits]
    rw [ih rest (fun x hx => hds x (List.mem_cons_of_mem c hx)) hrest]
    simp [hc]

theorem numTail_facts {c : Char} (h : numTail c = false) :
    c.isDigit = false ∧ c ≠ '.' ∧ c ≠ 'e' ∧ c ≠ 'E' := by
  refine ⟨?_, ?_, ?_, ?_⟩
  · cases hcd : c.isDigit
    · rfl
    · rw [numTail, hcd] at h
      simp at h
  · intro he
    rw [he] at h
    exact absurd h (by decide)
  · intro he
    rw [he] at h
    exact absurd h (by decide)
  · intro he
    rw [he] at h
    exact absurd h (by decide)

theorem restSafe_head_not_digit : ∀ {rest : List Char}, restSafe rest →
    (match rest with | [] => True | c :: _ => c.isDigit = false) := by
  intro rest h
  cases rest with
  | nil => trivial
  | cons c r => exact (numTail_facts h).1

theorem scanFrac_restSafe : ∀ {rest : List Char}, restSafe rest → scanFrac rest = none := by
  intro rest h
  match rest with
  | [] => rfl
  | [c] => rfl
  | c :: c2 :: r =>
    obtain ⟨-, hdot, -, -⟩ := numTail_facts h
    rw [scanFrac, if_neg]
    intro hcon
    exact absurd hcon.1 hdot

theorem scanExp_restSafe : ∀ {rest : List Char}, restSafe rest → scanExp rest = none := by
  intro rest h
  match rest with
  | [] => rfl
  | [c] => rfl
  | [c, c2] =>
    obtain ⟨-, -, he, hE⟩ := numTail_facts h
    rw [scanExp, if_neg]
    intro hcon
    rcases hcon.1 with h1 | h1
    · exact absurd h1 he
    · exact absurd h1 hE
  | c :: c2 :: c3 :: r =>
    obtain ⟨-, -, he, hE⟩ := numTail_facts h
    rw [scanExp, if_neg]
    intro hcon
    rcases hcon with h1 | h1
    · exact absurd h1 he
    · exact absurd h1 hE

theorem printNat_shape : ∀ m : Nat, ∃ c ds, printNat m = c :: ds ∧ c.isDigit = true := by
  intro m
  by_cases h : m = 0
  · subst h
    exact ⟨Char.ofNat 48, [], printNat_lt10 (by omega), by decide⟩
  · obtain ⟨c, ds, hs, _, hd, _⟩ := printNat_head m (by omega)
    exact ⟨c, ds, hs, hd⟩

theorem digit_ne_specials {c : Char} (h : c.isDigit = true) :
    c ≠ '"' ∧ c ≠ lbrace ∧ c ≠ '[' ∧ c ≠ 'n' ∧ c ≠ 't' ∧ c ≠ 'f' ∧ c ≠ 'N' ∧
      c ≠ 'I' ∧ c ≠ '-' ∧ c ≠ ']' ∧ isJsonWS c = false := by
  refine ⟨?_, ?_, ?_, ?_, ?_, ?_, ?_, ?_, ?_, ?_, ?_⟩
  · intro he; rw [he] at h; exact absurd h (by decide)
  · intro he; rw [he] at h; exact absurd h (by decide)
  · intro he; rw [he] at h; exact absurd h (by decide)
  · intro he; rw [he] at h; exact absurd h (by decide)
  · intro he; rw [he] at h; exact absurd h (by decide)
  · intro he; rw [he] at h; exact absurd h (by decide)
  · intro he; rw [he] at h; exact absurd h (by decide)
  · intro he; rw [he] at h; exact absurd h (by decide)
  · intro he; rw [he] at h; exact absurd h (by decide)
  · intro he; rw [he] at h; exact absurd h (by decide)
  · cases hws : isJsonWS c
    · rfl
    · exfalso
      simp [isJsonWS] at hws
      rcases hws with ((rfl | rfl) | rfl) | rfl <;> exact absurd h (by decide)

theorem scanNumberCore_printNat (neg : Bool) (n : Nat) (rest : List Char)
    (hrest : restSafe rest) :
    scanNumberCore neg (printNat n ++ rest)
      = some (.int (if neg then -(n : Int) else (n : Int)), rest) := by
  by_cases h0 : n = 0
  · subst h0
    rw [printNat_lt10 (by omega)]
    rw [show ([Char.ofNat 48] : List Char) ++ rest = Char.ofNat 48 :: rest from rfl]
    rw [scanNumberCore]
    rw [if_pos (Or.inl (by decide))]
    rw [if_pos (by decide)]
    dsimp only
    rw [scanFrac_restSafe hrest, scanExp_restSafe hrest]
    dsimp only
    rw [show digitsVal [Char.ofNat 48] = 0 from by decide]
  · obtain ⟨c, ds, hshape, hc9, hcdig, hds⟩ := printNat_head n (by omega)
    rw [hshape, List.cons_append, scanNumberCore]
    have hc0 : ¬ c = '0' := by
      intro hc
      rw [hc] at hc9
      exact absurd hc9.1 (by decide)
    rw [if_pos (Or.inr hc9)]
    rw [if_neg hc0]
    rw [spanDigits_append ds rest hds (restSafe_head_not_digit hrest)]
    dsimp only
    rw [scanFrac_restSafe hrest, scanExp_restSafe hrest]
    dsimp only
    have hval : digitsVal (c :: ds) = n := by
      rw [← hshape]
      exact digitsVal_printNat n
    rw [hval]

theorem vsize_pos : ∀ v : JsonVal, 1 ≤ vsize v := by
  intro v
  cases v <;> simp [vsize]

/-- The printed form of a no-float value starts with a character that is
    neither whitespace nor a closing bracket, so token boundaries survive
    the whitespace skipping of the reader. -/
theorem dumpVal_head (v : JsonVal) (lvl : Nat) (h : noFloat v = true) :
    ∃ c cs', dumpVal lvl v = c :: cs' ∧ isJsonWS c = false ∧ c ≠ ']' := by
  cases v with
  | str s => exact ⟨'"', _, rfl, by decide, by decide⟩
  | int n =>
    cases n with
    | ofNat m =>
      obtain ⟨c, ds, hs, hd⟩ := printNat_shape m
      obtain ⟨-, -, -, -, -, -, -, -, -, hne, hws⟩ := digit_ne_specials hd
      exact ⟨c, ds, hs, hws, hne⟩
    | negSucc m => exact ⟨'-', _, rfl, by decide, by decide⟩
  | bool b =>
    cases b with
    | true => exact ⟨'t', _, rfl, by decide, by decide⟩
    | false => exact ⟨'f', _, rfl, by decide, by decide⟩
  | null => exact ⟨'n', _, rfl, by decide, by decide⟩
  | numLex s => exact absurd h (by simp [noFloat])
  | arr l =>
    cases l with
    | nil => exact ⟨'[', _, rfl, by decide, by decide⟩
    | cons v vs => exact ⟨'[', _, rfl, by decide, by decide⟩
  | obj kvs =>
    cases kvs with
    | nil => exact ⟨lbrace, _, rfl, by decide, by decide⟩
    | cons kv kvs => exact ⟨lbrace, _, rfl, by decide, by decide⟩

theorem restSafe_arrRest (lvl lvl2 : Nat) (vs : List JsonVal) (X : List Char) :
    restSafe (dumpArrRest lvl vs ++ (nlIndent lvl2 ++ X)) := by
  cases vs with
  | nil =>
    show numTail '\n' = false
    decide
  | cons w ws =>
    show numTail ',' = false
    decide

theorem restSafe_objRest (lvl lvl2 : Nat) (kvs : List (String × JsonVal)) (X : List Char) :
    restSafe (dumpObjRest lvl kvs ++ (nlIndent lvl2 ++ X)) := by
  cases kvs with
  | nil =>
    show numTail '\n' = false
    decide
  | cons kv kvs =>
    obtain ⟨k, w⟩ := kv
    show numTail ',' = false
    decide

mutual
/-- Reading back the printed form of a float-free value consumes exactly
    the printed text and reconstructs the value, for any fuel above its
    structural size. -/
theorem RT_val (v : JsonVal) (lvl fuel : Nat) (rest : List Char)
    (hnf : noFloat v = true) (hfuel : vsize v < fuel) (hrest : restSafe rest) :
    parseVal fuel (dumpVal lvl v ++ rest) = some (v, rest) := by
  obtain ⟨f, rfl⟩ : ∃ f, fuel = f + 1 := ⟨fuel - 1, by omega⟩
  cases v with
  | str s =>
    show parseVal (f + 1) (('"' :: (escList s.data ++ ['"'])) ++ rest) = _
    rw [List.cons_append, List.append_assoc,
      show (['"'] : List Char) ++ rest = '"' :: rest from rfl]
    show (match scanString ((escList s.data ++ '"' :: rest).length + 1)
        (escList s.data ++ '"' :: rest) with
      | some (out, r) => some (JsonVal.str ⟨out⟩, r)
      | none => none) = _
    rw [scanString_escList s.data _ rest (by rw [List.length_append]; simp; omega)]
  | int n =>
    cases n with
    | ofNat m =>
      obtain ⟨c, ds, hsh, hdig⟩ := printNat_shape m
      obtain ⟨hq, hb, hk, hn, ht, hf2, hN, hI, hm, -, -⟩ := digit_ne_specials hdig
      show parseVal (f + 1) (printNat m ++ rest) = _
      rw [hsh, List.cons_append]
      simp only [parseVal]
      rw [if_neg hq, if_neg hb, if_neg hk, if_neg hn, if_neg ht, if_neg hf2,
        if_neg hN, if_neg hI, if_neg hm, if_pos hdig, ← List.cons_append, ← hsh,
        scanNumberCore_printNat false m rest hrest]
      rfl
    | negSucc m =>
      show parseVal (f + 1) (('-' :: printNat (m + 1)) ++ rest) = _
      rw [List.cons_append]
      obtain ⟨c, ds, hsh, hc9, hdig, -⟩ := printNat_head (m + 1) (by omega)
      obtain ⟨-, -, -, -, -, -, -, hI, -, -, -⟩ := digit_ne_specials hdig
      simp only [parseVal]
      rw [if_neg (by decide), if_neg (by decide), if_neg (by decide),
        if_neg (by decide), if_neg (by decide), if_neg (by decide),
        if_neg (by decide), if_neg (by decide)]
      simp only [if_true]
      rw [hsh, List.cons_append]
      dsimp only
      rw [if_neg hI, ← List.cons_append, ← hsh,
        scanNumberCore_printNat true (m + 1) rest hrest]
      rfl
  | bool b => cases b <;> rfl
  | null => rfl
  | numLex s => exact absurd hnf (by simp [noFloat])
  | arr l =>
    cases l with
    | nil => rfl
    | cons v vs =>
      have hnf2 : noFloat v = true ∧ noFloatList vs = true := by
        have : noFloat (JsonVal.arr (v :: vs)) = (noFloat v && noFloatList vs) := rfl
        rw [this] at hnf
        exact ⟨(Bool.and_eq_true _ _).mp hnf |>.1, (Bool.and_eq_true _ _).mp hnf |>.2⟩
      have hsz : 1 + vsize v + lsize vs < f := by
        have : vsize (JsonVal.arr (v :: vs)) = 1 + (1 + vsize v + lsize vs) := rfl
        omega
      show parseVal (f + 1) (('[' :: (nlIndent (lvl + 1) ++ dumpVal (lvl + 1) v ++
        dumpArrRest (lvl + 1) vs ++ nlIndent lvl ++ [']'])) ++ rest) = _
      rw [List.cons_append]
      simp only [List.append_assoc, List.singleton_append]
      show (match skipWS (nlIndent (lvl + 1) ++ (dumpVal (lvl + 1) v ++
          (dumpArrRest (lvl + 1) vs ++ (nlIndent lvl ++ (']' :: rest))))) with
        | [] => none
        | c2 :: r2 =>
          if c2 = ']' then some (JsonVal.arr [], r2)
          else
            match parseItems f (c2 :: r2) with
            | some (vs2, r3) => some (JsonVal.arr vs2, r3)
            | none => none) = _
      rw [skipWS_nlIndent]
      obtain ⟨c2, cs2, hsh, hws, hne⟩ := dumpVal_head v (lvl + 1) hnf2.1
      rw [hsh, List.cons_append, skipWS_not_ws _ hws]
      dsimp only
      rw [if_neg hne, ← List.cons_append, ← hsh,
        RT_items v vs lvl f rest hnf2.1 hnf2.2 hsz]
  | obj kvs =>
    cases kvs with
    | nil => rfl
    | cons kv kvs =>
      obtain ⟨k, v⟩ := kv
      have hnf2 : noFloat v = true ∧ noFloatObj kvs = true := by
        have : noFloat (JsonVal.obj ((k, v) :: kvs))
            = (noFloat v && noFloatObj kvs) := rfl
        rw [this] at hnf
        exact ⟨(Bool.and_eq_true _ _).mp hnf |>.1, (Bool.and_eq_true _ _).mp hnf |>.2⟩
      have hsz : 1 + vsize v + osize kvs < f := by
        have : vsize (JsonVal.obj ((k, v) :: kvs)) = 1 + (1 + vsize v + osize kvs) := rfl
        omega
      show parseVal (f + 1) ((lbrace :: (nlIndent (lvl + 1) ++ encodeStr k ++
        ':' :: ' ' :: dumpVal (lvl + 1) v ++ dumpObjRest (lvl + 1) kvs ++
        nlIndent lvl ++ [rbrace])) ++ rest) = _
      rw [List.cons_append]
      simp only [List.append_assoc, List.singleton_append, List.cons_append]
      show (match skipWS (nlIndent (lvl + 1) ++ (encodeStr k ++
          (':' :: ' ' :: (dumpVal (lvl + 1) v ++ (dumpObjRest (lvl + 1) kvs ++
          (nlIndent lvl ++ (rbrace :: rest))))))) with
        | [] => none
        | c2 :: r2 =>
          if c2 = rbrace then some (JsonVal.obj [], r2)
          else
            match parseMembers f (c2 :: r2) with
            | some (kvs2, r3) => some (JsonVal.obj kvs2, r3)
            | none => none) = _
      rw [skipWS_nlIndent]
      rw [show encodeStr k ++ (':' :: ' ' :: (dumpVal (lvl + 1) v ++
          (dumpObjRest (lvl + 1) kvs ++ (nlIndent lvl ++ (rbrace :: rest)))))
          = '"' :: ((escList k.data ++ ['"']) ++ (':' :: ' ' :: (dumpVal (lvl + 1) v ++
          (dumpObjRest (lvl + 1) kvs ++ (nlIndent lvl ++ (rbrace :: rest))))))
          from rfl]
      rw [skipWS_not_ws _ (by decide)]
      dsimp only
      rw [if_neg (by decide)]
      rw [show ('"' : Char) :: ((escList k.data ++ ['"']) ++ (':' :: ' ' ::
          (dumpVal (lvl + 1) v ++ (dumpObjRest (lvl + 1) kvs ++
          (nlIndent lvl ++ (rbrace :: rest))))))
          = encodeStr k ++ (':' :: ' ' :: (dumpVal (lvl + 1) v ++
          (dumpObjRest (lvl + 1) kvs ++ (nlIndent lvl ++ (rbrace :: rest)))))
          from rfl]
      rw [RT_members k v kvs lvl f rest hnf2.1 hnf2.2 hsz]
termination_by fuel

/-- Reading back printed array items from the first one on. -/
theorem RT_items (v : JsonVal) (vs : List JsonVal) (lvl fuel : Nat) (rest : List Char)
    (hnf : noFloat v = true) (hnfs : noFloatList vs = true)
    (hfuel : 1 + vsize v + lsize vs < fuel) :
    parseItems fuel (dumpVal (lvl + 1) v ++ (dumpArrRest (lvl + 1) vs ++
      (nlIndent lvl ++ (']' :: rest)))) = some (v :: vs, rest) := by
  obtain ⟨f, rfl⟩ : ∃ f, fuel = f + 1 := ⟨fuel - 1, by omega⟩
  show (match parseVal f (dumpVal (lvl + 1) v ++ (dumpArrRest (lvl + 1) vs ++
      (nlIndent lvl ++ (']' :: rest)))) with
    | none => none
    | some (v2, r) =>
      match skipWS r with
      | [] => none
      | c :: r2 =>
        if c = ']' then some ([v2], r2)
        else if c = ',' then
          match parseItems f (skipWS r2) with
          | some (vs2, r3) => some (v2 :: vs2, r3)
          | none => none
        else none) = _
  rw [RT_val v (lvl + 1) f _ hnf (by omega) (restSafe_arrRest (lvl + 1) lvl vs _)]
  dsimp only
  cases vs with
  | nil =>
    rw [show dumpArrRest (lvl + 1) ([] : List JsonVal) ++ (nlIndent lvl ++ (']' :: rest))
        = nlIndent lvl ++ (']' :: rest) from rfl]
    rw [skipWS_nlIndent, skipWS_not_ws _ (by decide)]
    dsimp only
    rw [if_pos rfl]
  | cons w ws =>
    have hnf2 : noFloat w = true ∧ noFloatList ws = true := by
      have : noFloatList (w :: ws) = (noFloat w && noFloatList ws) := rfl
      rw [this] at hnfs
      exact ⟨(Bool.and_eq_true _ _).mp hnfs |>.1, (Bool.and_eq_true _ _).mp hnfs |>.2⟩
    have hsz : 1 + vsize w + lsize ws < f := by
      have h1 : lsize (w :: ws) = 1 + vsize w + lsize ws := rfl
      have h2 := vsize_pos v
      omega
    rw [show dumpArrRest (lvl + 1) (w :: ws) ++ (nlIndent lvl ++ (']' :: rest))
        = ',' :: ((nlIndent (lvl + 1) ++ dumpVal (lvl + 1) w ++
          dumpArrRest (lvl + 1) ws) ++ (nlIndent lvl ++ (']' :: rest))) from rfl]
    rw [skipWS_not_ws _ (by decide)]
    dsimp only
    rw [if_neg (by decide)]
    simp only [List.append_assoc]
    rw [skipWS_nlIndent]
    obtain ⟨c2, cs2, hsh, hws, -⟩ := dumpVal_head w (lvl + 1) hnf2.1
    rw [hsh, List.cons_append, skipWS_not_ws _ hws, ← List.cons_append, ← hsh,
      RT_items w ws lvl f rest hnf2.1 hnf2.2 hsz]
    simp only [if_true]
termination_by fuel

/-- Reading back printed object members from the first one on. -/
theorem RT_members (k : String) (v : JsonVal) (kvs : List (String × JsonVal))
    (lvl fuel : Nat) (rest : List Char)
    (hnf : noFloat v = true) (hnfs : noFloatObj kvs = true)
    (hfuel : 1 + vsize v + osize kvs < fuel) :
    parseMembers fuel (encodeStr k ++ (':' :: ' ' :: (dumpVal (lvl + 1) v ++
      (dumpObjRest (lvl + 1) kvs ++ (nlIndent lvl ++ (rbrace :: rest))))))
      = some ((k, v) :: kvs, rest) := by
  obtain ⟨f, rfl⟩ : ∃ f, fuel = f + 1 := ⟨fuel - 1, by omega⟩
  rw [show encodeStr k ++ (':' :: ' ' :: (dumpVal (lvl + 1) v ++
      (dumpObjRest (lvl + 1) kvs ++ (nlIndent lvl ++ (rbrace :: rest)))))
      = '"' :: (escList k.data ++ ('"' :: (':' :: ' ' :: (dumpVal (lvl + 1) v ++
      (dumpObjRest (lvl + 1) kvs ++ (nlIndent lvl ++ (rbrace :: rest)))))))
      from by simp [encodeStr]]
  show (match scanString ((escList k.data ++ ('"' :: (':' :: ' ' ::
      (dumpVal (lvl + 1) v ++ (dumpObjRest (lvl + 1) kvs ++
      (nlIndent lvl ++ (rbrace :: rest))))))).length + 1)
      (escList k.data ++ ('"' :: (':' :: ' ' :: (dumpVal (lvl + 1) v ++
      (dumpObjRest (lvl + 1) kvs ++ (nlIndent lvl ++ (rbrace :: rest))))))) with
    | none => none
    | some (kdata, r2) =>
      match skipWS r2 with
      | ':' :: r3 =>
        match parseVal f (skipWS r3) with
        | none => none
        | some (v2, r4) =>
          match skipWS r4 with
          | [] => none
          | c :: r5 =>
            if c = rbrace then some ([(String.mk kdata, v2)], r5)
            else if c = ',' then
              match parseMembers f (skipWS r5) with
              | some (kvs2, r6) => some ((String.mk kdata, v2) :: kvs2, r6)
              | none => none
            else none
      | _ => none) = _
  rw [scanString_escList k.data _ _ (by rw [List.length_append]; simp; omega)]
  dsimp only
  rw [skipWS_not_ws _ (by decide)]
  show (match parseVal f (skipWS (' ' :: (dumpVal (lvl + 1) v ++
      (dumpObjRest (lvl + 1) kvs ++ (nlIndent lvl ++ (rbrace :: rest)))))) with
    | none => none
    | some (v2, r4) =>
      match skipWS r4 with
      | [] => none
      | c :: r5 =>
        if c = rbrace then some ([(String.mk k.data, v2)], r5)
        else if c = ',' then
          match parseMembers f (skipWS r5) with
          | some (kvs2, r6) => some ((String.mk k.data, v2) :: kvs2, r6)
          | none => none
        else none) = _
  rw [show skipWS (' ' :: (dumpVal (lvl + 1) v ++ (dumpObjRest (lvl + 1) kvs ++
      (nlIndent lvl ++ (rbrace :: rest)))))
      = skipWS (dumpVal (lvl + 1) v ++ (dumpObjRest (lvl + 1) kvs ++
      (nlIndent lvl ++ (rbrace :: rest)))) from by simp [skipWS, isJsonWS]]
  obtain ⟨c2, cs2, hsh, hws, -⟩ := dumpVal_head v (lvl + 1) hnf
  rw [hsh, List.cons_append, skipWS_not_ws _ hws, ← List.cons_append, ← hsh,
    RT_val v (lvl + 1) f _ hnf (by omega) (restSafe_objRest (lvl + 1) lvl kvs _)]
  dsimp only
  cases kvs with
  | nil =>
    rw [show dumpObjRest (lvl + 1) ([] : List (String × JsonVal)) ++
        (nlIndent lvl ++ (rbrace :: rest)) = nlIndent lvl ++ (rbrace :: rest) from rfl]
    rw [skipWS_nlIndent, skipWS_not_ws _ (by decide)]
    dsimp only
    rw [if_pos rfl]
  | cons kv2 kvs2 =>
    obtain ⟨k2, w⟩ := kv2
    have hnf2 : noFloat w = true ∧ noFloatObj kvs2 = true := by
      have : noFloatObj ((k2, w) :: kvs2) = (noFloat w && noFloatObj kvs2) := rfl
      rw [this] at hnfs
      exact ⟨(Bool.and_eq_true _ _).mp hnfs |>.1, (Bool.and_eq_true _ _).mp hnfs |>.2⟩
    have hsz : 1 + vsize w + osize kvs2 < f := by
      have h1 : osize ((k2, w) :: kvs2) = 1 + vsize w + osize kvs2 := rfl
      have h2 := vsize_pos v
      omega
    rw [show dumpObjRest (lvl + 1) ((k2, w) :: kvs2) ++
        (nlIndent lvl ++ (rbrace :: rest))
        = ',' :: ((nlIndent (lvl + 1) ++ encodeStr k2 ++ ':' :: ' ' ::
          dumpVal (lvl + 1) w ++ dumpObjRest (lvl + 1) kvs2) ++
          (nlIndent lvl ++ (rbrace :: rest))) from rfl]
    rw [skipWS_not_ws _ (by decide)]
    dsimp only
    rw [if_neg (by decide), if_pos rfl]
    simp only [List.append_assoc, List.cons_append]
    rw [skipWS_nlIndent]
    rw [show encodeStr k2 ++ (':' :: ' ' :: (dumpVal (lvl + 1) w ++
        (dumpObjRest (lvl + 1) kvs2 ++ (nlIndent lvl ++ (rbrace :: rest)))))
        = '"' :: ((escList k2.data ++ ['"']) ++ (':' :: ' ' :: (dumpVal (lvl + 1) w ++
        (dumpObjRest (lvl + 1) kvs2 ++ (nlIndent lvl ++ (rbrace :: rest))))))
        from rfl]
    rw [skipWS_not_ws _ (by decide)]
    rw [show ('"' : Char) :: ((escList k2.data ++ ['"']) ++ (':' :: ' ' ::
        (dumpVal (lvl + 1) w ++ (dumpObjRest (lvl + 1) kvs2 ++
        (nlIndent lvl ++ (rbrace :: rest))))))
        = encodeStr k2 ++ (':' :: ' ' :: (dumpVal (lvl + 1) w ++
        (dumpObjRest (lvl + 1) kvs2 ++ (nlIndent lvl ++ (rbrace :: rest)))))
        from rfl]
    rw [RT_members k2 w kvs2 lvl f rest hnf2.1 hnf2.2 hsz]
termination_by fuel
end

mutual
theorem vsize_le_dumpLen (v : JsonVal) (lvl : Nat) (h : noFloat v = true) :
    vsize v ≤ (dumpVal lvl v).length := by
  cases v with
  | str s =>
    show 1 ≤ ('"' :: (escList s.data ++ ['"'])).length
    simp
  | int n =>
    cases n with
    | ofNat m =>
      obtain ⟨c, ds, hsh, -⟩ := printNat_shape m
      show 1 ≤ (printNat m).length
      rw [hsh]
      simp
    | negSucc m =>
      show 1 ≤ ('-' :: printNat (m + 1)).length
      simp
  | bool b =>
    cases b with
    | true => exact (show (1 : Nat) ≤ ("true".data).length by decide)
    | false => exact (show (1 : Nat) ≤ ("false".data).length by decide)
  | null => exact (show (1 : Nat) ≤ ("null".data).length by decide)
  | numLex s => exact absurd h Bool.false_ne_true
  | arr l =>
    cases l with
    | nil => exact (show vsize (JsonVal.arr []) ≤ (['[', ']'] : List Char).length by decide)
    | cons v vs =>
      have hnf2 := (Bool.and_eq_true _ _).mp (show (noFloat v && noFloatList vs) = true from h)
      have h1 := vsize_le_dumpLen v (lvl + 1) hnf2.1
      have h2 := lsize_le_arrRestLen vs (lvl + 1) hnf2.2
      show 1 + (1 + vsize v + lsize vs) ≤
        ('[' :: (nlIndent (lvl + 1) ++ dumpVal (lvl + 1) v ++ dumpArrRest (lvl + 1) vs ++
          nlIndent lvl ++ [']'])).length
      simp only [List.length_cons, List.length_append, nlIndent, List.length_replicate,
        List.length_singleton]
      omega
  | obj kvs =>
    cases kvs with
    | nil =>
      exact (show vsize (JsonVal.obj []) ≤ ([lbrace, rbrace] : List Char).length by decide)
    | cons kv kvs =>
      obtain ⟨k, v⟩ := kv
      have hnf2 := (Bool.and_eq_true _ _).mp (show (noFloat v && noFloatObj kvs) = true from h)
      have h1 := vsize_le_dumpLen v (lvl + 1) hnf2.1
      have h2 := osize_le_objRestLen kvs (lvl + 1) hnf2.2
      show 1 + (1 + vsize v + osize kvs) ≤
        (lbrace :: (nlIndent (lvl + 1) ++ encodeStr k ++ ':' :: ' ' :: dumpVal (lvl + 1) v ++
          dumpObjRest (lvl + 1) kvs ++ nlIndent lvl ++ [rbrace])).length
      simp only [List.length_cons, List.length_append, nlIndent, List.length_replicate,
        List.length_singleton]
      omega

theorem lsize_le_arrRestLen (vs : List JsonVal) (lvl : Nat) (h : noFloatList vs = true) :
    lsize vs ≤ (dumpArrRest lvl vs).length := by
  cases vs with
  | nil => exact Nat.le_refl 0
  | cons v vs =>
    have hnf2 := (Bool.and_eq_true _ _).mp (show (noFloat v && noFloatList vs) = true from h)
    have h1 := vsize_le_dumpLen v lvl hnf2.1
    have h2 := lsize_le_arrRestLen vs lvl hnf2.2
    show 1 + vsize v + lsize vs ≤
      (',' :: (nlIndent lvl ++ dumpVal lvl v ++ dumpArrRest lvl vs)).length
    simp only [List.length_cons, List.length_append, nlIndent, List.length_replicate]
    omega

theorem osize_le_objRestLen (kvs : List (String × JsonVal)) (lvl : Nat)
    (h : noFloatObj kvs = true) :
    osize kvs ≤ (dumpObjRest lvl kvs).length := by
  cases kvs with
  | nil => exact Nat.le_refl 0
  | cons kv kvs =>
    obtain ⟨k, v⟩ := kv
    have hnf2 := (Bool.and_eq_true _ _).mp (show (noFloat v && noFloatObj kvs) = true from h)
    have h1 := vsize_le_dumpLen v lvl hnf2.1
    have h2 := osize_le_objRestLen kvs lvl hnf2.2
    show 1 + vsize v + osize kvs ≤
      (',' :: (nlIndent lvl ++ encodeStr k ++ ':' :: ' ' :: dumpVal lvl v ++
        dumpObjRest lvl kvs)).length
    simp only [List.length_cons, List.length_append, nlIndent, List.length_replicate]
    omega
end

/-- json.load applied to the 2-space-indented dump of a float-free value
    list recovers exactly that list. -/
theorem parseJson_serialize (E : List JsonVal) (h : noFloatList E = true) :
    parseJson (serialize E) = some (.arr E) := by
  unfold parseJson serialize
  rw [show (String.mk (dumpVal 0 (.arr E))).data = dumpVal 0 (.arr E) from rfl]
  obtain ⟨c, cs, hsh, hws, -⟩ :=
    dumpVal_head (.arr E) 0 (show noFloat (.arr E) = true from h)
  rw [hsh, skipWS_not_ws _ hws, ← hsh]
  have hlen : vsize (.arr E) < (dumpVal 0 (.arr E)).length + 1 := by
    have := vsize_le_dumpLen (.arr E) 0 (show noFloat (.arr E) = true from h)
    omega
  rw [show dumpVal 0 (.arr E) = dumpVal 0 (.arr E) ++ [] from (List.append_nil _).symm,
    RT_val (.arr E) 0 _ [] h (by simpa using hlen) trivial]
  rfl

theorem strArr_elems_noFloatList : ∀ l : List JsonVal,
    l.all isStr = true → noFloatList l = true := by
  intro l
  induction l with
  | nil => intro _; rfl
  | cons w ws ih =>
    intro h
    rw [List.all_cons, Bool.and_eq_true] at h
    have hw : noFloat w = true := by
      cases w with
      | str s => rfl
      | int n => rfl
      | bool b => rfl
      | null => rfl
      | numLex s => exact absurd h.1 Bool.false_ne_true
      | arr l2 => exact absurd h.1 Bool.false_ne_true
      | obj kvs => exact absurd h.1 Bool.false_ne_true
    calc noFloatList (w :: ws) = (noFloat w && noFloatList ws) := rfl
      _ = true := by rw [hw, ih h.2]; rfl

theorem isStrArr_noFloat : ∀ {v : JsonVal}, isStrArr v = true → noFloat v = true := by
  intro v h
  cases v with
  | arr l => exact strArr_elems_noFloatList l h
  | str s => rfl
  | int n => rfl
  | bool b => rfl
  | null => rfl
  | numLex s => exact absurd h Bool.false_ne_true
  | obj kvs => exact absurd h Bool.false_ne_true

theorem wfVal_noFloat {k : String} {v : JsonVal} (h : wfVal k v = true) :
    noFloat v = true := by
  unfold wfVal at h
  split_ifs at h
  · exact isStrArr_noFloat h
  · cases v with
    | int n => rfl
    | str s => exact absurd h Bool.false_ne_true
    | bool b => exact absurd h Bool.false_ne_true
    | null => exact absurd h Bool.false_ne_true
    | numLex s => exact absurd h Bool.false_ne_true
    | arr l => exact absurd h Bool.false_ne_true
    | obj kvs => exact absurd h Bool.false_ne_true
  · cases v with
    | str s => rfl
    | int n => exact absurd h Bool.false_ne_true
    | bool b => exact absurd h Bool.false_ne_true
    | null => exact absurd h Bool.false_ne_true
    | numLex s => exact absurd h Bool.false_ne_true
    | arr l => exact absurd h Bool.false_ne_true
    | obj kvs => exact absurd h Bool.false_ne_true

theorem objAll_noFloatObj : ∀ kvs : List (String × JsonVal),
    kvs.all (fun kv => wfVal kv.1 kv.2) = true → noFloatObj kvs = true := by
  intro kvs
  induction kvs with
  | nil => intro _; rfl
  | cons kv kvs ih =>
    intro h
    obtain ⟨k, v⟩ := kv
    rw [List.all_cons, Bool.and_eq_true] at h
    calc noFloatObj ((k, v) :: kvs) = (noFloat v && noFloatObj kvs) := rfl
      _ = true := by rw [wfVal_noFloat h.1, ih h.2]; rfl

theorem wfEvent_noFloat {v : JsonVal} (h : wfEvent v = true) : noFloat v = true := by
  cases v with
  | obj kvs =>
    have h2 := ((Bool.and_eq_true _ _).mp h).2
    exact objAll_noFloatObj kvs h2
  | str s => rfl
  | int n => rfl
  | bool b => rfl
  | null => rfl
  | numLex s => exact absurd h Bool.false_ne_true
  | arr l => exact absurd h Bool.false_ne_true

theorem wfEvents_noFloat : ∀ {E : List JsonVal}, wfEvents E = true → noFloatList E = true := by
  intro E h
  induction E with
  | nil => rfl
  | cons v vs ih =>
    rw [wfEvents, List.all_cons, Bool.and_eq_true] at h
    calc noFloatList (v :: vs) = (noFloat v && noFloatList vs) := rfl
      _ = true := by rw [wfEvent_noFloat h.1, ih h.2]; rfl

/-- Claim C3: deserializing the serialization of a well-formed event
    collection (records carrying the declared fields with their declared
    types) returns the collection unchanged, field for field, with the
    characters and categories arrays preserved as ordered string
    sequences. -/
theorem claim_C3 (E : List JsonVal) (hwf : wfEvents E = true) :
    deserialize (serialize E) = some E := by
  unfold deserialize
  rw [parseJson_serialize E (wfEvents_noFloat hwf)]

/-- Witness for claim C3: a concrete well-formed one-event collection
    survives the round trip. -/
theorem claim_C3_witness :
    wfEvents [evJson] = true ∧ deserialize (serialize [evJson]) = some [evJson] :=
  ⟨rfl, claim_C3 [evJson] rfl⟩

end ARTimeline
